import Mathlib

/-!
# Verification of the music-board catalog merge scripts

Shallow embedding of the identity-resolution and merge logic of the
`scripts/music-board` importers (DistroKid album importer, NetEase artist
sync, NetEase→DistroKid attach, local album-metadata enrichment, and the
YouTube playlist attach script), together with theorems settling the
frozen claims about them.

Strings are modelled as Lean `String`s; the JavaScript string operations
used by the scripts (trim, toLowerCase, toUpperCase, includes, startsWith,
regex replaces) are modelled character-exactly for the character
repertoire these scripts process (ASCII, the CJK punctuation appearing in
the regex character classes, and fullwidth forms).  `String.normalize
("NFKC")` is modelled by `nfkcChar`, the singleton NFKC mapping, which is
exact for inputs without combining sequences (fullwidth forms map to
their ASCII counterparts, the ideographic space to a plain space, all
other characters occurring here are NFKC-invariant).
-/

namespace MusicBoard

/-- JavaScript whitespace (the `\s` class / `trim`): space, tab, LF, CR,
VT, FF, NBSP, ideographic space, BOM — the space-like characters that can
occur here. -/
def isJsWs (c : Char) : Bool :=
  decide (c.toNat = 32 ∨ c.toNat = 9 ∨ c.toNat = 10 ∨ c.toNat = 13 ∨
    c.toNat = 0x0b ∨ c.toNat = 0x0c ∨ c.toNat = 0xa0 ∨
    c.toNat = 0x3000 ∨ c.toNat = 0xfeff)

/-- ASCII `A`–`Z` and fullwidth `Ａ`–`Ｚ` lowercasing (the effect of JS
`toLowerCase` on the character repertoire of these scripts). -/
def jsLowerChar (c : Char) : Char :=
  if (65 ≤ c.toNat ∧ c.toNat ≤ 90) ∨ (0xFF21 ≤ c.toNat ∧ c.toNat ≤ 0xFF3A)
  then Char.ofNat (c.toNat + 32) else c

/-- ASCII `a`–`z` uppercasing (JS `toUpperCase` on the ASCII ISRC strings
used here). -/
def jsUpperChar (c : Char) : Char :=
  if 97 ≤ c.toNat ∧ c.toNat ≤ 122 then Char.ofNat (c.toNat - 32) else c

/-- Singleton NFKC mapping: fullwidth forms U+FF01–U+FF5E map to ASCII,
the ideographic space U+3000 maps to a space; every other character in
the scripts' repertoire is NFKC-invariant. -/
def nfkcChar (c : Char) : Char :=
  if 0xFF01 ≤ c.toNat ∧ c.toNat ≤ 0xFF5E then Char.ofNat (c.toNat - 0xFEE0)
  else if c.toNat = 0x3000 then ' '
  else c

/-- JS `String.prototype.trim` on a character list. -/
def trimChars (l : List Char) : List Char :=
  ((l.dropWhile isJsWs).reverse.dropWhile isJsWs).reverse

def jsTrim (s : String) : String := ⟨trimChars s.data⟩

def jsLower (s : String) : String := ⟨s.data.map jsLowerChar⟩

def jsUpper (s : String) : String := ⟨s.data.map jsUpperChar⟩

/-- Does `hay` start with `needle`? -/
def startsWithChars : List Char → List Char → Bool
  | _, [] => true
  | [], _ :: _ => false
  | a :: as, b :: bs => a = b && startsWithChars as bs

/-- Is `needle` a contiguous substring of `hay`? -/
def isInfixChars (needle : List Char) : List Char → Bool
  | [] => needle.isEmpty
  | c :: cs => startsWithChars (c :: cs) needle || isInfixChars needle cs

/-- JS `a.includes b` (substring containment; the empty pattern matches). -/
def jsIncludes (a b : String) : Bool := isInfixChars b.data a.data

/-- Collapse every run of whitespace to a single space
(`replace(/\s+/g, " ")`). -/
def collapseWsAux : Bool → List Char → List Char
  | _, [] => []
  | prevWs, c :: cs =>
    if isJsWs c then
      if prevWs then collapseWsAux true cs else ' ' :: collapseWsAux true cs
    else c :: collapseWsAux false cs

def collapseWs (l : List Char) : List Char := collapseWsAux false l

/-! ## Data model

Catalog entities are the plain JSON records of `catalog.json`.  Absent
string fields are modelled as `""` (every script reads them through
`(x || "")`), absent numbers as `none`.  Of the `refs` mapping only the
identifiers the scripts consult are modelled
(`refs.distrokid.albumuuid`, `refs.netease.albumId`). -/

structure Link where
  platform : String
  label : String
  url : String
  deriving DecidableEq, Repr

structure Embed where
  platform : String
  label : String
  url : String
  height : Option Int
  deriving DecidableEq, Repr

structure Meta where
  duration : String
  version : String
  createdAt : String
  inspiration : List (String × String)
  lyrics : String
  deriving DecidableEq, Repr

structure Item where
  id : String
  type : String
  title : String
  artist : String
  releaseDate : String
  cover : String
  collectionId : String
  isrc : String
  upc : String
  trackCount : Option Int
  trackNo : Option Nat
  tags : List String
  links : List Link
  embeds : List Embed
  refsDistrokidAlbumuuid : String
  refsNeteaseAlbumId : String
  lyrics : String
  mood : String
  duration : String
  version : String
  createdAt : String
  inspiration : List (String × String)
  styleTags : List String
  deriving DecidableEq, Repr

/-- A default item: every field empty/absent. -/
def emptyItem : Item where
  id := ""
  type := ""
  title := ""
  artist := ""
  releaseDate := ""
  cover := ""
  collectionId := ""
  isrc := ""
  upc := ""
  trackCount := none
  trackNo := none
  tags := []
  links := []
  embeds := []
  refsDistrokidAlbumuuid := ""
  refsNeteaseAlbumId := ""
  lyrics := ""
  mood := ""
  duration := ""
  version := ""
  createdAt := ""
  inspiration := []
  styleTags := []

/-- `new Map(items.map(it => [it.id, it]))` and `byId.set`: the catalog as a
list of items with unique ids; `setById` replaces in place (preserving
position) or appends, like a JS `Map`. -/
def setById (items : List Item) (x : Item) : List Item :=
  if items.any (fun it => it.id = x.id) then
    items.map (fun it => if it.id = x.id then x else it)
  else items ++ [x]

def getById (items : List Item) (i : String) : Option Item :=
  items.find? (fun it => it.id = i)

/-! ## Shared helpers of the importers -/

/-- `platformKey` (identical in all scripts):
`(platform ?? "").toString().trim().toLowerCase().replace(/\s+/g, "")`. -/
def platformKey (platform : String) : String :=
  ⟨((trimChars platform.data).map jsLowerChar).filter (fun c => !isJsWs c)⟩

/-- `new Set(list)` as a list: dedup keeping the first occurrence, in
insertion order. -/
def setFromList (l : List String) : List String :=
  l.foldl (fun acc t => if t ∈ acc then acc else acc ++ [t]) []

/-- `addTag` of import-distrokid-album-html.mjs: build a `Set` from the
truthy tags, then add `tag`. -/
def addTag (tags : List String) (tag : String) : List String :=
  let s := setFromList (tags.filter (fun t => t ≠ ""))
  if tag ∈ s then s else s ++ [tag]

/-- `addTags` of sync-netease-artist-albums-api.mjs: build a `Set` from the
truthy existing tags, then add every truthy incoming tag. -/
def addTags (existing incoming : List String) : List String :=
  setFromList ((existing.filter (fun t => t ≠ "")) ++
    (incoming.filter (fun t => t ≠ "")))

/-! ## Key normalizers -/

/-- The characters of the (truncated) character class of the `replace` in
`normalizeKey` of import-distrokid-album-html.mjs: the `\\]` in the source
closes the class after `...()（）\\[`, so the class holds whitespace, the
listed punctuation, the backslash and `[` — and NOT `]{}<>`.
(39 is the apostrophe.) -/
def isDkClassChar (c : Char) : Bool :=
  isJsWs c ||
  -- · • — – - _ / \ : ： , ， . 。 ! ? ！ ？ ' " “ ” ‘ ’ ( ) （ ） [
  decide (c.toNat = 183 ∨ c.toNat = 8226 ∨ c.toNat = 8212 ∨ c.toNat = 8211 ∨
    c.toNat = 45 ∨ c.toNat = 95 ∨ c.toNat = 47 ∨ c.toNat = 92 ∨
    c.toNat = 58 ∨ c.toNat = 65306 ∨ c.toNat = 44 ∨ c.toNat = 65292 ∨
    c.toNat = 46 ∨ c.toNat = 12290 ∨ c.toNat = 33 ∨ c.toNat = 63 ∨
    c.toNat = 65281 ∨ c.toNat = 65311 ∨ c.toNat = 39 ∨ c.toNat = 34 ∨
    c.toNat = 8220 ∨ c.toNat = 8221 ∨ c.toNat = 8216 ∨ c.toNat = 8217 ∨
    c.toNat = 40 ∨ c.toNat = 41 ∨ c.toNat = 65288 ∨ c.toNat = 65289 ∨
    c.toNat = 91)

/-- After the early-closed class, the rest of the malformed pattern is the
literal text `\x7b\x7d<>` followed by one or more `]`. -/
def dkBrokenTail : List Char := "\x7b\x7d<>".data

/-- The global `replace` of import-distrokid-album-html.mjs `normalizeKey`
with its malformed pattern: it deletes a class character followed by the
literal `\x7b\x7d<>` and a maximal nonempty run of `]`; everything else is
kept verbatim.  (Structural recursion on a fuel that bounds the length;
every step consumes at least one character, so `l.length` fuel is always
enough and the `0` case is unreachable.) -/
def dkBrokenStripGo : Nat → List Char → List Char
  | _, [] => []
  | 0, l => l
  | fuel + 1, c :: cs =>
    if isDkClassChar c && startsWithChars cs dkBrokenTail &&
        !((cs.drop 4).takeWhile (fun d => d = ']')).isEmpty then
      dkBrokenStripGo fuel ((cs.drop 4).drop
        (((cs.drop 4).takeWhile (fun d => d = ']')).length))
    else c :: dkBrokenStripGo fuel cs

def dkBrokenStrip (l : List Char) : List Char := dkBrokenStripGo l.length l

/-- `normalizeKey` of import-distrokid-album-html.mjs:
NFKC, trim, lowercase, then the malformed `replace` (see `dkBrokenStrip`):
ordinary whitespace and punctuation are NOT removed. -/
def normalizeKeyDk (s : String) : String :=
  ⟨dkBrokenStrip ((trimChars (s.data.map nfkcChar)).map jsLowerChar)⟩

/-- The stripped character class of `normalizeKey` in
attach-netease-to-distrokid.mjs: the DistroKid class plus `]{}<>《》`
(here the class is written correctly in the source). -/
def isAttachStripChar (c : Char) : Bool :=
  isDkClassChar c ||
  -- ] \x7b \x7d < > 《 》
  decide (c.toNat = 93 ∨ c.toNat = 123 ∨ c.toNat = 125 ∨ c.toNat = 60 ∨
    c.toNat = 62 ∨ c.toNat = 12298 ∨ c.toNat = 12299)

/-- `normalizeKey` of attach-netease-to-distrokid.mjs: NFKC, trim,
lowercase, then delete every whitespace/punctuation/bracket character. -/
def normalizeKeyAttach (s : String) : String :=
  ⟨((trimChars (s.data.map nfkcChar)).map jsLowerChar).filter
    (fun c => !isAttachStripChar c)⟩

/-! ## Link/Embed mergers -/

/-- `Map.set`: update in place when the key exists (keeping its position),
otherwise append. -/
def mapSetLink (m : List (String × Link)) (k : String) (v : Link) :
    List (String × Link) :=
  if m.any (fun p => p.1 = k) then
    m.map (fun p => if p.1 = k then (k, v) else p)
  else m ++ [(k, v)]

def mapGetLink (m : List (String × Link)) (k : String) : Option Link :=
  (m.find? (fun p => p.1 = k)).map (fun p => p.2)

/-- The canonical platform of a link in `mergeLinks` of
import-distrokid-album-html.mjs: `facebook` folds into `instagram`,
otherwise the trimmed raw platform. -/
def canonicalPlatform (l : Link) : String :=
  if platformKey l.platform = "facebook" then "instagram" else jsTrim l.platform

/-- `looksDefaultLabel` of import-distrokid-album-html.mjs. -/
def looksDefaultLabel (label platform : String) : Bool :=
  let l := jsLower (jsTrim label)
  let p := jsLower (jsTrim platform)
  l = "" || l = p || l = "link"

/-- First loop of `mergeLinks` (import-distrokid-album-html.mjs): seed the
by-platform map from the existing links. -/
def dkLinksExistingStep (m : List (String × Link)) (l : Link) :
    List (String × Link) :=
  let canonical := canonicalPlatform l
  let p := platformKey canonical
  if p = "" then m else mapSetLink m p { l with platform := canonical }

/-- Second loop of `mergeLinks` (import-distrokid-album-html.mjs): merge an
incoming link into the by-platform map (fill empty url, replace a
default-looking label). -/
def dkLinksIncomingStep (m : List (String × Link)) (l : Link) :
    List (String × Link) :=
  let canonical := canonicalPlatform l
  let p := platformKey canonical
  if p = "" then m
  else
    match mapGetLink m p with
    | none => mapSetLink m p { l with platform := canonical }
    | some prev =>
      let n1 := if l.label ≠ "" && looksDefaultLabel prev.label prev.platform
        then { prev with label := l.label } else prev
      let n2 := if n1.url = "" && l.url ≠ "" then { n1 with url := l.url } else n1
      mapSetLink m p n2

/-- `mergeLinks` of import-distrokid-album-html.mjs: group by normalized
platform key and return the map's values. -/
def mergeLinksDk (existing incoming : List Link) : List Link :=
  ((incoming.foldl dkLinksIncomingStep
    (existing.foldl dkLinksExistingStep [])).map (fun p => p.2))

/-- The `seen`-set loop shared by the sync-netease `mergeLinks` and
`mergeEmbeds`: walk the concatenated list, skip entries whose key is
`none` (the `continue` guards) or already seen, keep the first entry of
each key. -/
def dedupAux {α K : Type} [DecidableEq K] (κ : α → Option K) :
    List α → List K → List α
  | [], _ => []
  | a :: as, seen =>
    match κ a with
    | none => dedupAux κ as seen
    | some k =>
      if k ∈ seen then dedupAux κ as seen
      else a :: dedupAux κ as (k :: seen)

/-- The dedup key of the sync-netease `mergeLinks`: the RAW
`platform::url` pair; entries with both platform and url empty are
skipped. -/
def linkKeySync (l : Link) : Option (String × String) :=
  if l.platform = "" ∧ l.url = "" then none else some (l.platform, l.url)

/-- `mergeLinks` of sync-netease-artist-albums-api.mjs.  The record it
pushes (`platform`, `label` or `""`, `url`) coincides with the link
itself in this three-field model. -/
def mergeLinksSync (existing incoming : List Link) : List Link :=
  dedupAux linkKeySync (existing ++ incoming) []

/-- The dedup key of the sync-netease `mergeEmbeds`: the RAW
`platform::url` pair; entries with an empty url are skipped. -/
def embedKeySync (e : Embed) : Option (String × String) :=
  if e.url = "" then none else some (e.platform, e.url)

/-- `mergeEmbeds` of sync-netease-artist-albums-api.mjs. -/
def mergeEmbedsSync (existing incoming : List Embed) : List Embed :=
  dedupAux embedKeySync (existing ++ incoming) []

/-- `mergeEmbeds` of attach-netease-to-distrokid.mjs: dedup (keeping the
first) by the pair (normalized platform key, url); entries with empty url
are dropped; the kept record's platform is trimmed. -/
def mergeEmbedsAttachAux : List Embed → List (String × String) → List Embed
  | [], _ => []
  | e :: es, seen =>
    if e.url = "" then mergeEmbedsAttachAux es seen
    else if (platformKey e.platform, e.url) ∈ seen then mergeEmbedsAttachAux es seen
    else { e with platform := jsTrim e.platform } ::
      mergeEmbedsAttachAux es ((platformKey e.platform, e.url) :: seen)

def mergeEmbedsAttach (existing incoming : List Embed) : List Embed :=
  mergeEmbedsAttachAux (existing ++ incoming) []

/-! ## DistroKid album importer (import-distrokid-album-html.mjs) -/

/-- The incoming album record built by `toIncomingAlbum`:
`type` is always `"album"`, `embeds` is always `[]`, and
`refs.distrokid` always carries the `albumuuid` key. -/
structure DkIncomingAlbum where
  id : String
  title : String
  artist : String
  releaseDate : String
  cover : String
  trackCount : Option Int
  upc : String
  tags : List String
  links : List Link
  albumuuid : String
  deriving DecidableEq, Repr

/-- The incoming track record built by `toNewTrackItem`: `type` is always
`"song"`, `embeds` is always `[]`; no `trackNo` key is set. -/
structure DkIncomingTrack where
  id : String
  title : String
  artist : String
  releaseDate : String
  cover : String
  collectionId : String
  isrc : String
  tags : List String
  links : List Link
  albumuuid : String
  deriving DecidableEq, Repr

/-- The stored item created from a `DkIncomingAlbum` on the no-match path. -/
def dkAlbumToItem (x : DkIncomingAlbum) : Item :=
  { emptyItem with
    id := x.id, type := "album", title := x.title, artist := x.artist,
    releaseDate := x.releaseDate, cover := x.cover, trackCount := x.trackCount,
    upc := x.upc, tags := x.tags, links := x.links,
    refsDistrokidAlbumuuid := x.albumuuid }

/-- The stored item created from a `DkIncomingTrack` on the create path. -/
def dkTrackToItem (x : DkIncomingTrack) : Item :=
  { emptyItem with
    id := x.id, type := "song", title := x.title, artist := x.artist,
    releaseDate := x.releaseDate, cover := x.cover,
    collectionId := x.collectionId, isrc := x.isrc, tags := x.tags,
    links := x.links, refsDistrokidAlbumuuid := x.albumuuid }

/-- `findAlbumMatch` (lines 283–309): UPC first, then releaseDate +
normalized title, then the DistroKid `albumuuid` recorded in refs; each
strategy takes the first matching catalog item. -/
def findAlbumMatch (items : List Item) (incoming : DkIncomingAlbum) :
    Option Item :=
  let upc := jsTrim incoming.upc
  let byUpc := if upc ≠ "" then
      items.find? (fun it =>
        (it.type = "album" || it.type = "collection") && it.upc = upc)
    else none
  match byUpc with
  | some m => some m
  | none =>
    let releaseDate := jsTrim incoming.releaseDate
    let titleKey := normalizeKeyDk incoming.title
    let byTitleDate := if releaseDate ≠ "" && titleKey ≠ "" then
        items.find? (fun it =>
          (it.type = "album" || it.type = "collection") &&
          it.releaseDate = releaseDate && normalizeKeyDk it.title = titleKey)
      else none
    match byTitleDate with
    | some m => some m
    | none =>
      let albumuuid := incoming.albumuuid
      if albumuuid ≠ "" then
        items.find? (fun it => it.refsDistrokidAlbumuuid = albumuuid)
      else none

/-- `mergeAlbum` of import-distrokid-album-html.mjs (lines 266–281):
starts from a copy of the existing item; every scalar field is
fill-missing; `refs.distrokid` is overwritten key-by-key by the incoming
one (which always carries `albumuuid`). -/
def mergeAlbumDk (existing : Item) (incoming : DkIncomingAlbum) : Item :=
  { existing with
    type := "album"
    tags := addTag (addTag existing.tags "distrokid") "album"
    links := mergeLinksDk existing.links incoming.links
    title := if existing.title = "" ∨ existing.title = "(未命名专辑)"
      then incoming.title else existing.title
    artist := if existing.artist = "" then incoming.artist else existing.artist
    cover := if existing.cover = "" then incoming.cover else existing.cover
    releaseDate := if existing.releaseDate = ""
      then incoming.releaseDate else existing.releaseDate
    trackCount := if existing.trackCount = none ∧ incoming.trackCount ≠ none
      then incoming.trackCount else existing.trackCount
    upc := if existing.upc = "" ∧ incoming.upc ≠ ""
      then incoming.upc else existing.upc
    refsDistrokidAlbumuuid := incoming.albumuuid }

/-- `findTrackByIsrc` (lines 311–315): searches ALL songs of the catalog,
regardless of collection. -/
def findTrackByIsrc (items : List Item) (isrc : String) : Option Item :=
  let key := jsUpper (jsTrim isrc)
  if key = "" then none
  else items.find? (fun it =>
    it.type = "song" && jsUpper (jsTrim it.isrc) = key)

/-- `stripAlbumPrefix` (lines 317–326): drop a leading album-title prefix
from a track title (comparison on the NFKC forms, slicing by the raw
album-title length). -/
def stripAlbumPfx (trackTitle albumTitle : String) : String :=
  let t := jsTrim trackTitle
  let a := jsTrim albumTitle
  if t = "" ∨ a = "" then t
  else
    let loweredT := t.data.map nfkcChar
    let loweredA := a.data.map nfkcChar
    if startsWithChars loweredT (loweredA ++ [' ']) then
      ⟨trimChars (t.data.drop (a.data.length + 1))⟩
    else if startsWithChars loweredT loweredA then
      ⟨trimChars (t.data.drop a.data.length)⟩
    else t

/-- `findTrackByTitleInAlbum` (lines 328–336): candidates are the songs of
the given collection only; exact normalized-title equality first, then a
two-way containment fallback (with NO length guard). -/
def findTrackByTitleInAlbum (items : List Item) (albumId : String)
    (trackTitle albumTitle : String) : Option Item :=
  let key := normalizeKeyDk (stripAlbumPfx trackTitle albumTitle)
  if key = "" then none
  else
    let candidates := items.filter (fun it =>
      it.type = "song" && it.collectionId = albumId)
    match candidates.find? (fun it => normalizeKeyDk it.title = key) with
    | some direct => some direct
    | none => candidates.find? (fun it =>
        jsIncludes (normalizeKeyDk it.title) key ||
        jsIncludes key (normalizeKeyDk it.title))

/-- `pickTrackPlatforms` (lines 243–246). -/
def pickTrackPlatforms (albumLinks : List Link) : List Link :=
  albumLinks.filter (fun l =>
    platformKey l.platform ∈
      ["spotify", "apple", "youtube", "tiktok", "netease", "qq"])

/-- The `albumMetaForTracks` record of `main` (lines 426–432). -/
structure AlbumMetaT where
  albumuuid : String
  title : String
  artist : String
  releaseDate : String
  cover : String
  deriving DecidableEq, Repr

/-- A parsed track row from the album HTML (`parseTracks` output). -/
structure ParsedTrack where
  trackNo : Option Nat
  title : String
  isrc : String
  deriving DecidableEq, Repr

/-- `toNewTrackItem` (lines 338–355).  Note `track?.trackNo || "x"`:
a zero or missing track number yields `"x"`. -/
def toNewTrackItem (albumId : String) (albumMeta : AlbumMetaT)
    (track : ParsedTrack) (albumLinks : List Link) : DkIncomingTrack :=
  let isrc := jsUpper (jsTrim track.isrc)
  { id := if isrc ≠ "" then "isrc-" ++ isrc
      else "distrokid-track-" ++
        (if albumMeta.albumuuid ≠ "" then albumMeta.albumuuid else albumId) ++
        "-" ++ (match track.trackNo with
                | some n => if n = 0 then "x" else toString n
                | none => "x")
    title := stripAlbumPfx track.title albumMeta.title
    artist := albumMeta.artist
    releaseDate := albumMeta.releaseDate
    cover := albumMeta.cover
    collectionId := albumId
    isrc := isrc
    tags := ["distrokid", "song"] ++
      (if albumMeta.title ≠ "" then [albumMeta.title] else [])
    links := pickTrackPlatforms albumLinks
    albumuuid := albumMeta.albumuuid }

/-- `mergeTrack` (lines 357–366): a copy of the existing track with tags
and links merged and `isrc`/`releaseDate`/`cover` fill-missing; every
other field of the existing track is left untouched. -/
def mergeTrack (existing : Item) (incoming : DkIncomingTrack) : Item :=
  { existing with
    type := "song"
    tags := addTag existing.tags "distrokid"
    links := mergeLinksDk existing.links incoming.links
    isrc := if existing.isrc = "" ∧ incoming.isrc ≠ ""
      then incoming.isrc else existing.isrc
    releaseDate := if existing.releaseDate = ""
      then incoming.releaseDate else existing.releaseDate
    cover := if existing.cover = "" then incoming.cover else existing.cover }

/-- The per-track body of `main` (lines 434–465): ISRC match first (over
the whole catalog, adopting the matched track's own collection), then
title match within the album, then optional creation. -/
def processTrack (byId : List Item) (albumId : String)
    (albumMeta : AlbumMetaT) (albumLinks : List Link)
    (canCreateTracks : Bool) (t : ParsedTrack) : List Item :=
  let isrc := jsUpper (jsTrim t.isrc)
  let byIsrc := if isrc ≠ "" then findTrackByIsrc byId isrc else none
  match byIsrc with
  | some m =>
    let incoming := toNewTrackItem
      (if m.collectionId ≠ "" then m.collectionId else albumId)
      albumMeta t albumLinks
    let incoming := { incoming with id := m.id }
    setById byId (mergeTrack m incoming)
  | none =>
    match findTrackByTitleInAlbum byId albumId t.title albumMeta.title with
    | some m =>
      let incoming := { toNewTrackItem albumId albumMeta t albumLinks
        with id := m.id }
      setById byId (mergeTrack m incoming)
    | none =>
      if canCreateTracks then
        let incoming := toNewTrackItem albumId albumMeta t albumLinks
        if byId.any (fun it => it.id = incoming.id) then byId
        else byId ++ [dkTrackToItem incoming]
      else byId

/-! ## NetEase artist sync (sync-netease-artist-albums-api.mjs) -/

/-- An incoming album record (`toAlbumItemFromArtistList` /
`toAlbumItemFromAlbumApi`): the keys the record carries.  `type` is always
`"album"`. -/
structure NeAlbumIncoming where
  id : String
  title : String
  artist : String
  releaseDate : String
  cover : String
  trackCount : Option Int
  tags : List String
  links : List Link
  embeds : List Embed
  deriving DecidableEq, Repr

/-- An incoming song record (`toSongItemFromAlbumApi`): `type` is always
`"song"`. -/
structure NeSongIncoming where
  id : String
  title : String
  artist : String
  releaseDate : String
  cover : String
  collectionId : String
  tags : List String
  links : List Link
  embeds : List Embed
  deriving DecidableEq, Repr

def neAlbumToItem (x : NeAlbumIncoming) : Item :=
  { emptyItem with
    id := x.id, type := "album", title := x.title, artist := x.artist,
    releaseDate := x.releaseDate, cover := x.cover, trackCount := x.trackCount,
    tags := x.tags, links := x.links, embeds := x.embeds }

def neSongToItem (x : NeSongIncoming) : Item :=
  { emptyItem with
    id := x.id, type := "song", title := x.title, artist := x.artist,
    releaseDate := x.releaseDate, cover := x.cover,
    collectionId := x.collectionId, tags := x.tags, links := x.links,
    embeds := x.embeds }

/-- `mergeAlbum` of sync-netease-artist-albums-api.mjs (lines 193–204).
`const next = (...existing, ...incoming)` lets every key of the incoming
record overwrite the existing one BEFORE the fill-missing conditionals
run, so the conditionals only ever re-assign the value the spread already
put there. -/
def mergeAlbumSync (existing : Item) (incoming : NeAlbumIncoming) : Item :=
  let next : Item := { existing with
    id := incoming.id, type := "album", title := incoming.title,
    artist := incoming.artist, releaseDate := incoming.releaseDate,
    cover := incoming.cover, trackCount := incoming.trackCount,
    tags := incoming.tags, links := incoming.links, embeds := incoming.embeds }
  let next := { next with tags := addTags next.tags incoming.tags }
  let next := { next with links := mergeLinksSync existing.links incoming.links }
  let next := if existing.title = "" ∨ existing.title = "(未命名专辑)"
    then { next with title := incoming.title } else next
  let next := if existing.artist = ""
    then { next with artist := incoming.artist } else next
  let next := if existing.cover = ""
    then { next with cover := incoming.cover } else next
  let next := if existing.releaseDate = ""
    then { next with releaseDate := incoming.releaseDate } else next
  let next := if existing.trackCount = none ∧ incoming.trackCount ≠ none
    then { next with trackCount := incoming.trackCount } else next
  next

/-- `mergeSong` of sync-netease-artist-albums-api.mjs (lines 206–218);
same spread-then-conditionals shape as `mergeAlbumSync`. -/
def mergeSong (existing : Item) (incoming : NeSongIncoming) : Item :=
  let next : Item := { existing with
    id := incoming.id, type := "song", title := incoming.title,
    artist := incoming.artist, releaseDate := incoming.releaseDate,
    cover := incoming.cover, collectionId := incoming.collectionId,
    tags := incoming.tags, links := incoming.links, embeds := incoming.embeds }
  let next := { next with collectionId :=
    if incoming.collectionId ≠ "" then incoming.collectionId
    else if existing.collectionId ≠ "" then existing.collectionId else "" }
  let next := { next with tags := addTags next.tags incoming.tags }
  let next := { next with links := mergeLinksSync existing.links incoming.links }
  let next := { next with embeds := mergeEmbedsSync existing.embeds incoming.embeds }
  let next := if existing.title = "" ∨ existing.title = "(未命名)"
    then { next with title := incoming.title } else next
  let next := if existing.artist = ""
    then { next with artist := incoming.artist } else next
  let next := if existing.cover = ""
    then { next with cover := incoming.cover } else next
  let next := if existing.releaseDate = ""
    then { next with releaseDate := incoming.releaseDate } else next
  next

/-- The album upsert of `main` (lines 279–285): merge when the id is
already present, insert otherwise. -/
def upsertAlbumSync (items : List Item) (incoming : NeAlbumIncoming) :
    List Item :=
  match getById items incoming.id with
  | some prev => setById items (mergeAlbumSync prev incoming)
  | none => setById items (neAlbumToItem incoming)

/-- The song upsert of `main` (lines 296–305). -/
def upsertSongSync (items : List Item) (incoming : NeSongIncoming) :
    List Item :=
  match getById items incoming.id with
  | some prev => setById items (mergeSong prev incoming)
  | none => setById items (neSongToItem incoming)

/-! ## NetEase → DistroKid attach (attach-netease-to-distrokid.mjs) -/

/-- The tie-break score of `pickMatchedAlbum` (lines 141–153): 2 when both
trackCounts are present and equal, 0 when both present and different,
1 when either is missing. -/
def tcScore (dk cand : Item) : Int :=
  match dk.trackCount, cand.trackCount with
  | some x, some y => if x = y then 2 else 0
  | some _, none => 1
  | none, _ => 1

/-- The candidate filter of `pickMatchedAlbum` (lines 127–136): normalized
titles non-empty and equal; dates must agree only when both are present. -/
def neAlbumCandidate (dkAlbum : Item) (a : Item) : Bool :=
  let dkTitle := normalizeKeyAttach dkAlbum.title
  let dkDate := jsTrim dkAlbum.releaseDate
  let nTitle := normalizeKeyAttach a.title
  let nDate := jsTrim a.releaseDate
  (nTitle ≠ "" && nTitle = dkTitle) &&
  (dkDate = "" || nDate = "" || nDate = dkDate)

/-- The best-score fold of `pickMatchedAlbum`: starts from the first
candidate with score −1 and keeps the first strictly-better candidate. -/
def tcBest (dk : Item) (c : Item) (rest : List Item) : Item :=
  ((c :: rest).foldl
    (fun (b : Item × Int) a =>
      if tcScore dk a > b.2 then (a, tcScore dk a) else b)
    (c, -1)).1

/-- `pickMatchedAlbum` (lines 122–154). -/
def pickMatchedAlbum (dkAlbum : Item) (neteaseAlbums : List Item) :
    Option Item :=
  if normalizeKeyAttach dkAlbum.title = "" then none
  else
    match neteaseAlbums.filter (neAlbumCandidate dkAlbum) with
    | [] => none
    | [a] => some a
    | c :: rest => some (tcBest dkAlbum c rest)

/-- `pickMatchedTrack` (lines 156–167): exact normalized-title equality
first, then two-way containment with a non-empty candidate key. -/
def pickMatchedTrack (dkTrack : Item) (neteaseTracks : List Item) :
    Option Item :=
  let dkTitle := normalizeKeyAttach dkTrack.title
  if dkTitle = "" then none
  else
    match neteaseTracks.find? (fun t => normalizeKeyAttach t.title = dkTitle) with
    | some exact => some exact
    | none => neteaseTracks.find? (fun t =>
        let n := normalizeKeyAttach t.title
        n ≠ "" && (jsIncludes n dkTitle || jsIncludes dkTitle n))

/-! ## YouTube playlist attach (the unnamed attach-youtube script) -/

/-- Replace every maximal run of `p`-characters by a single space
(`replace(/[...]+/g, " ")`). -/
def collapseRunsAux (p : Char → Bool) : Bool → List Char → List Char
  | _, [] => []
  | prev, c :: cs =>
    if p c then
      if prev then collapseRunsAux p true cs
      else ' ' :: collapseRunsAux p true cs
    else c :: collapseRunsAux p false cs

def collapseRuns (p : Char → Bool) (l : List Char) : List Char :=
  collapseRunsAux p false l

/-- Whitespace, middle dot and bullet (first `replace` of `normTitle`). -/
def isYtSpaceDot (c : Char) : Bool :=
  isJsWs c || c.toNat = 0xB7 || c.toNat = 0x2022

/-- The bracket class of `normTitle`'s second `replace`:
( ) （ ） 【 】 [ ] 「 」 『 』 \x7b \x7d. -/
def isYtBracket (c : Char) : Bool :=
  decide (c.toNat = 40 ∨ c.toNat = 41 ∨ c.toNat = 65288 ∨ c.toNat = 65289 ∨
    c.toNat = 12304 ∨ c.toNat = 12305 ∨ c.toNat = 91 ∨ c.toNat = 93 ∨
    c.toNat = 12300 ∨ c.toNat = 12301 ∨ c.toNat = 12302 ∨ c.toNat = 12303 ∨
    c.toNat = 123 ∨ c.toNat = 125)

/-- The punctuation class of `normTitle`'s third `replace`:
. , ! ? ， 。 ！ ？ : ： ; ； " ' “ ” ‘ ’ ` ~ - _ / \ |. -/
def isYtPunct (c : Char) : Bool :=
  decide (c.toNat = 46 ∨ c.toNat = 44 ∨ c.toNat = 33 ∨ c.toNat = 63 ∨
    c.toNat = 65292 ∨ c.toNat = 12290 ∨ c.toNat = 65281 ∨ c.toNat = 65311 ∨
    c.toNat = 58 ∨ c.toNat = 65306 ∨ c.toNat = 59 ∨ c.toNat = 65307 ∨
    c.toNat = 34 ∨ c.toNat = 39 ∨ c.toNat = 8220 ∨ c.toNat = 8221 ∨
    c.toNat = 8216 ∨ c.toNat = 8217 ∨ c.toNat = 96 ∨ c.toNat = 126 ∨
    c.toNat = 45 ∨ c.toNat = 95 ∨ c.toNat = 47 ∨ c.toNat = 92 ∨
    c.toNat = 124)

/-- `normTitle` of the YouTube attach script: trim, lowercase, dots/bullets
to spaces, delete brackets, delete punctuation, delete all whitespace. -/
def normTitle (t : String) : String :=
  let step1 := (trimChars t.data).map jsLowerChar
  let step2 := collapseRuns isYtSpaceDot step1
  let step3 := step2.filter (fun c => !isYtBracket c)
  let step4 := step3.filter (fun c => !isYtPunct c)
  ⟨step4.filter (fun c => !isJsWs c)⟩

/-- `safeContainsMatch` of the YouTube attach script (lines 138–144):
two-way containment guarded by a minimum length of 2 on BOTH sides. -/
def safeContainsMatch (trackKey candidateKey : String) : Bool :=
  if trackKey = "" || candidateKey = "" then false
  else if trackKey.data.length < 2 then false
  else if candidateKey.data.length < 2 then false
  else jsIncludes candidateKey trackKey || jsIncludes trackKey candidateKey

/-! ## Local album-metadata importer (import-local-album-metadata.mjs) -/

/-- The `replaceAll` table of `normalizeText`: musical flats/sharps to
spaces, fullwidth brackets/colon/comma/stop （）【】：，。 to their ASCII
forms. -/
def normalizeTextChar (c : Char) : Char :=
  if c.toNat = 0x266D ∨ c.toNat = 0x266F then ' '
  else if c.toNat = 65288 then '(' else if c.toNat = 65289 then ')'
  else if c.toNat = 12304 then '[' else if c.toNat = 12305 then ']'
  else if c.toNat = 65306 then ':' else if c.toNat = 65292 then ','
  else if c.toNat = 12290 then '.' else c

/-- `normalizeText` (lines 39–53): trim, lowercase, then the replaceAlls. -/
def normalizeText (s : String) : String :=
  ⟨((trimChars s.data).map jsLowerChar).map normalizeTextChar⟩

/-- The separator class `[-._\s]` of the leading track-number pattern. -/
def isTrackSep (c : Char) : Bool :=
  decide (c.toNat = 45 ∨ c.toNat = 46 ∨ c.toNat = 95) || isJsWs c

/-- `replace(/^\s*\d+\s*[-._\s]+\s*/g, "")`: one anchored strip of a
leading track number; it applies iff some digits (after leading
whitespace) are followed by at least one separator/space, and then
consumes the maximal separator run. -/
def stripTrackNo (l : List Char) : List Char :=
  let l1 := l.dropWhile isJsWs
  if (l1.takeWhile Char.isDigit).isEmpty then l
  else
    let l2 := l1.dropWhile Char.isDigit
    match l2 with
    | [] => l
    | c :: _ => if isTrackSep c then l2.dropWhile isTrackSep else l

/-- The separator class `[_\-\s]` of the trailing-suffix patterns. -/
def isSufSep (c : Char) : Bool :=
  decide (c.toNat = 95 ∨ c.toNat = 45) || isJsWs c

/-- `replace(/(?:[_\-\s]*W)\s*$/g, "")` for a literal word `W`: if the
text (ignoring trailing whitespace) ends with `W`, drop `W`, the adjacent
separator run and the trailing whitespace; otherwise leave it unchanged. -/
def stripTrailWord (w : List Char) (l : List Char) : List Char :=
  let r := l.reverse.dropWhile isJsWs
  if startsWithChars r w.reverse then
    ((r.drop w.length).dropWhile isSufSep).reverse
  else l

/-- The `lyric(?:s)?` variant (case handled by the earlier lowercasing). -/
def stripTrailLyric (l : List Char) : List Char :=
  let r := l.reverse.dropWhile isJsWs
  if startsWithChars r ("lyrics".data.reverse) then
    ((r.drop 6).dropWhile isSufSep).reverse
  else if startsWithChars r ("lyric".data.reverse) then
    ((r.drop 5).dropWhile isSufSep).reverse
  else l

/-- The bracket class of `normalizeTitle` (each char becomes a space):
[ ] 【 】 ( ) （ ） \x7b \x7d < > 《 》. -/
def isLmBracket (c : Char) : Bool :=
  decide (c.toNat = 91 ∨ c.toNat = 93 ∨ c.toNat = 12304 ∨ c.toNat = 12305 ∨
    c.toNat = 40 ∨ c.toNat = 41 ∨ c.toNat = 65288 ∨ c.toNat = 65289 ∨
    c.toNat = 123 ∨ c.toNat = 125 ∨ c.toNat = 60 ∨ c.toNat = 62 ∨
    c.toNat = 12298 ∨ c.toNat = 12299)

/-- The punctuation class of `normalizeTitle` (each char becomes a space):
· • ! ！ ? ？ , : ： ; ； " ' “ ” ‘ ’ ` ~ @ # $ % ^ & * + = | \ /. -/
def isLmPunct (c : Char) : Bool :=
  decide (c.toNat = 183 ∨ c.toNat = 8226 ∨ c.toNat = 33 ∨ c.toNat = 65281 ∨
    c.toNat = 63 ∨ c.toNat = 65311 ∨ c.toNat = 44 ∨ c.toNat = 58 ∨
    c.toNat = 65306 ∨ c.toNat = 59 ∨ c.toNat = 65307 ∨ c.toNat = 34 ∨
    c.toNat = 39 ∨ c.toNat = 8220 ∨ c.toNat = 8221 ∨ c.toNat = 8216 ∨
    c.toNat = 8217 ∨ c.toNat = 96 ∨ c.toNat = 126 ∨ c.toNat = 64 ∨
    c.toNat = 35 ∨ c.toNat = 36 ∨ c.toNat = 37 ∨ c.toNat = 94 ∨
    c.toNat = 38 ∨ c.toNat = 42 ∨ c.toNat = 43 ∨ c.toNat = 61 ∨
    c.toNat = 124 ∨ c.toNat = 92 ∨ c.toNat = 47)

/-- JS `\w`: ASCII letters, digits, underscore. -/
def isWordChar (c : Char) : Bool :=
  decide ((97 ≤ c.toNat ∧ c.toNat ≤ 122) ∨ (65 ≤ c.toNat ∧ c.toNat ≤ 90) ∨
    (48 ≤ c.toNat ∧ c.toNat ≤ 57) ∨ c.toNat = 95)

/-- Length of a chord-name match `(?:maj|min|dim|aug)\d{0,2}\b` at the
head of `l` (the `\b` BEFORE the word is checked by the caller): the word,
at most two digits, and a word boundary after them. -/
def chordMatchLen (l : List Char) : Option Nat :=
  if startsWithChars l "maj".data || startsWithChars l "min".data ||
      startsWithChars l "dim".data || startsWithChars l "aug".data then
    let rest := l.drop 3
    let r := (rest.takeWhile Char.isDigit).length
    if r ≤ 2 then
      match rest.drop r with
      | [] => some (3 + r)
      | d :: _ => if isWordChar d then none else some (3 + r)
    else none
  else none

/-- `replace(/\b(?:maj|min|dim|aug)\d{0,2}\b/gi, " ")`: scan left to right,
tracking whether the previous ORIGINAL character was a word character
(after a match the scan resumes right after it, whose previous character
is always a word character).  `chordMatchLen` always returns at least 3,
so dropping `n - 1` of the tail consumes exactly the match.  (Structural
recursion on a length-bounding fuel; the `0` case is unreachable.) -/
def chordStripGo : Nat → Bool → List Char → List Char
  | _, _, [] => []
  | 0, _, l => l
  | fuel + 1, prevWord, c :: cs =>
    if prevWord then c :: chordStripGo fuel (isWordChar c) cs
    else
      match chordMatchLen (c :: cs) with
      | some n => ' ' :: chordStripGo fuel true (cs.drop (n - 1))
      | none => c :: chordStripGo fuel (isWordChar c) cs

def chordStripAux (prevWord : Bool) (l : List Char) : List Char :=
  chordStripGo l.length prevWord l

/-- `normalizeTitle` (lines 55–66): normalizeText, NFKC, strip a leading
track number, strip trailing lyrics-suffixes (歌词, lyric(s), lrc),
brackets and punctuation to spaces, strip chord names, collapse
whitespace and trim. -/
def normalizeTitle (s : String) : String :=
  let raw := (normalizeText s).data.map nfkcChar
  let noTrackNo := stripTrackNo raw
  let noLyricsSuffix :=
    stripTrailWord "lrc".data
      (stripTrailLyric (stripTrailWord "歌词".data noTrackNo))
  let noBrackets := noLyricsSuffix.map (fun c => if isLmBracket c then ' ' else c)
  let noPunct := noBrackets.map (fun c => if isLmPunct c then ' ' else c)
  let noChords := chordStripAux false noPunct
  ⟨trimChars (collapseWs noChords)⟩

/-- `isLyricsNoise` (lines 68–75): empty text, or at least three of the
AI-editor hint strings occurring in it. -/
def isLyricsNoise (text : String) : Bool :=
  if jsTrim text = "" then true
  else
    (["AI 作曲", "灵感创作", "模型选择", "优化提示词", "素材列表",
      "生成歌曲", "0/500"].filter (fun h => jsIncludes text h)).length ≥ 3

/-- `maybeSet` (lines 77–84) for a string-valued field: never writes an
empty (trimmed) incoming value; without `overwrite`, never replaces a
non-empty existing value; writes the trimmed incoming value. -/
def maybeSetStr (old v : String) (overwrite : Bool) : String × Bool :=
  if jsTrim v = "" then (old, false)
  else if !overwrite && jsTrim old ≠ "" then (old, false)
  else (jsTrim v, true)

/-- `maybeSet` for the object-valued `inspiration` field (a non-empty
stored object stringifies non-empty, so it is only replaced under
`overwrite`). -/
def maybeSetInsp (old v : List (String × String)) (overwrite : Bool) :
    List (String × String) :=
  if !overwrite && old ≠ [] then old else v

/-- Association-list lookup (`Map.get`). -/
def lget {α : Type} (m : List (String × α)) (k : String) : Option α :=
  (m.find? (fun p => p.1 = k)).map (fun p => p.2)

/-- The lookup maps built from the album working folder (lyrics, moods and
metadata keyed by bare track key and by composite album::track key). -/
structure LmMaps where
  lyricByTitle : List (String × String)
  metaByTitle : List (String × Meta)
  moodByTitle : List (String × String)
  lyricByAlbumTitle : List (String × String)
  metaByAlbumTitle : List (String × Meta)
  moodByAlbumTitle : List (String × String)
  albumStyleTagsByTitle : List (String × List String)
  deriving Repr

/-- `collectionsById` (lines 474–478). -/
def collectionsById (items : List Item) : List (String × String) :=
  (items.filter (fun it =>
    it.type = "album" || it.type = "collection" || it.type = "playlist")).map
    (fun it => (it.id, jsTrim it.title))

/-- `isDistrokidSong` (lines 272–277). -/
def isDistrokidSong (it : Item) : Bool :=
  it.type = "song" &&
  (startsWithChars it.id.data "isrc-".data || it.tags.contains "distrokid")

/-- `titleCounts` (lines 481–488): how many songs of the whole catalog
share the (non-empty) normalized title key `k`. -/
def titleCountsOf (items : List Item) (k : String) : Nat :=
  (items.filter (fun it =>
    it.type = "song" &&
    (let tk := normalizeTitle (jsTrim it.title); tk ≠ "" && tk = k))).length

/-- `distrokidTitleCounts` (lines 481–488), restricted to DistroKid songs. -/
def distrokidTitleCountsOf (items : List Item) (k : String) : Nat :=
  (items.filter (fun it =>
    isDistrokidSong it &&
    (let tk := normalizeTitle (jsTrim it.title); tk ≠ "" && tk = k))).length

/-- `makeCompositeKey` (lines 259–261). -/
def makeCompositeKey (albumKey trackKey : String) : String :=
  albumKey ++ "::" ++ trackKey

/-- `compositeKey ? maps.lyricByAlbumTitle.get(compositeKey) : null`. -/
def lyricAlbumOf (maps : LmMaps) (compositeKey : String) : Option String :=
  if compositeKey ≠ "" then lget maps.lyricByAlbumTitle compositeKey else none

/-- `compositeKey ? maps.moodByAlbumTitle.get(compositeKey) : ""`
(a missing entry is falsy, like the empty string). -/
def moodAlbumOf (maps : LmMaps) (compositeKey : String) : String :=
  if compositeKey ≠ "" then (lget maps.moodByAlbumTitle compositeKey).getD ""
  else ""

/-- `compositeKey ? maps.metaByAlbumTitle.get(compositeKey) : null`. -/
def metaAlbumOf (maps : LmMaps) (compositeKey : String) : Option Meta :=
  if compositeKey ≠ "" then lget maps.metaByAlbumTitle compositeKey else none

/-- The lyrics step of the enrichment loop (lines 575–590): a
composite-keyed lyric is preferred and always applied; a bare-title lyric
under an ambiguous title is applied only when at most one DistroKid song
shares the key, otherwise it is skipped and tallied. -/
def enrichLyricsStep (maps : LmMaps) (items : List Item) (overwrite : Bool)
    (key compositeKey : String) (ambiguousTitle : Bool) (it : Item) :
    Item × Nat :=
  let lyricAlbum := lyricAlbumOf maps compositeKey
  let lyricTitle := lget maps.lyricByTitle key
  let lyricIsFallback := lyricAlbum = none ∧ lyricTitle ≠ none
  match match lyricAlbum with | some x => some x | none => lyricTitle with
  | none => (it, 0)
  | some text =>
    if lyricIsFallback ∧ ambiguousTitle then
      if distrokidTitleCountsOf items key > 1 then (it, 1)
      else ({ it with lyrics := (maybeSetStr it.lyrics text overwrite).1 }, 0)
    else ({ it with lyrics := (maybeSetStr it.lyrics text overwrite).1 }, 0)

/-- The mood step (lines 592–602): a bare-title mood under an ambiguous
title is always skipped and tallied. -/
def enrichMoodStep (maps : LmMaps) (overwrite : Bool)
    (key compositeKey : String) (ambiguousTitle : Bool) (it : Item) :
    Item × Nat :=
  let moodAlbum := moodAlbumOf maps compositeKey
  let moodTitle := (lget maps.moodByTitle key).getD ""
  let mood := if moodAlbum ≠ "" then moodAlbum else moodTitle
  let moodIsFallback := moodAlbum = "" ∧ moodTitle ≠ ""
  if mood ≠ "" then
    if moodIsFallback ∧ ambiguousTitle then (it, 1)
    else ({ it with mood := (maybeSetStr it.mood mood overwrite).1 }, 0)
  else (it, 0)

/-- The metadata step (lines 604–626): duration/version/createdAt/
inspiration and a metadata-embedded lyric; a bare-title metadata record
under an ambiguous title is always skipped and tallied. -/
def enrichMetaStep (maps : LmMaps) (overwrite : Bool)
    (key compositeKey : String) (ambiguousTitle : Bool) (it : Item) :
    Item × Nat :=
  let metaAlbum := metaAlbumOf maps compositeKey
  let metaTitle := lget maps.metaByTitle key
  let metaIsFallback := metaAlbum = none ∧ metaTitle ≠ none
  match match metaAlbum with | some x => some x | none => metaTitle with
  | none => (it, 0)
  | some meta =>
    if metaIsFallback ∧ ambiguousTitle then (it, 1)
    else
      let it := { it with duration := (maybeSetStr it.duration meta.duration overwrite).1 }
      let it := { it with version := (maybeSetStr it.version meta.version overwrite).1 }
      let it := { it with createdAt := (maybeSetStr it.createdAt meta.createdAt overwrite).1 }
      let it := if meta.inspiration ≠ [] then
          { it with inspiration := maybeSetInsp it.inspiration meta.inspiration overwrite }
        else it
      let it := if meta.lyrics ≠ "" ∧ !isLyricsNoise meta.lyrics then
          { it with lyrics := (maybeSetStr it.lyrics meta.lyrics overwrite).1 }
        else it
      (it, 0)

/-- One iteration of the enrichment loop (lines 561–642) for a single
catalog item (`counts` are computed against the pre-loop catalog). -/
def enrichItem (maps : LmMaps) (items : List Item) (overwrite : Bool)
    (it : Item) : Item × Nat :=
  let key := normalizeTitle (jsTrim it.title)
  if key = "" then (it, 0)
  else if it.type = "song" then
    let collectionTitle := (lget (collectionsById items) it.collectionId).getD ""
    let albumKey := normalizeTitle collectionTitle
    let compositeKey := if albumKey ≠ "" then makeCompositeKey albumKey key else ""
    let ambiguousTitle := titleCountsOf items key > 1
    let (it1, s1) := enrichLyricsStep maps items overwrite key compositeKey ambiguousTitle it
    let (it2, s2) := enrichMoodStep maps overwrite key compositeKey ambiguousTitle it1
    let (it3, s3) := enrichMetaStep maps overwrite key compositeKey ambiguousTitle it2
    (it3, s1 + s2 + s3)
  else if it.type = "album" || it.type = "collection" || it.type = "playlist" then
    let styles := (lget maps.albumStyleTagsByTitle key).getD []
    if styles.isEmpty then (it, 0)
    else ({ it with styleTags := addTags it.styleTags styles }, 0)
  else (it, 0)

/-- The whole enrichment pass: every item is processed against the
pre-loop catalog; returns the updated items and the `skippedAmbiguous`
tally. -/
def enrichAll (maps : LmMaps) (overwrite : Bool) (items : List Item) :
    List Item × Nat :=
  ((items.map (fun it => (enrichItem maps items overwrite it).1)),
   (items.map (fun it => (enrichItem maps items overwrite it).2)).sum)

/-! ## Spec-side resolver (§4.3 of the specification)

`resolveOrdered` renders the spec contract: strategies are ordered; the
first strategy that yields a candidate wins; a strategy's candidate is the
first matching catalog item; a strategy yielding no candidate falls
through to the next one. -/

def resolveOrdered (strategies : List (Item → Bool)) (items : List Item) :
    Option Item :=
  match strategies with
  | [] => none
  | p :: rest =>
    match items.find? p with
    | some m => some m
    | none => resolveOrdered rest items

/-- Strategy 1 of `findAlbumMatch`: exact non-empty UPC equality. -/
def upcStrategy (incoming : DkIncomingAlbum) (it : Item) : Bool :=
  jsTrim incoming.upc ≠ "" &&
  ((it.type = "album" || it.type = "collection") &&
    it.upc = jsTrim incoming.upc)

/-- Strategy 2 of `findAlbumMatch`: equal release date plus equal
normalized title. -/
def dateTitleStrategy (incoming : DkIncomingAlbum) (it : Item) : Bool :=
  (jsTrim incoming.releaseDate ≠ "" && normalizeKeyDk incoming.title ≠ "") &&
  ((it.type = "album" || it.type = "collection") &&
    (it.releaseDate = jsTrim incoming.releaseDate &&
      normalizeKeyDk it.title = normalizeKeyDk incoming.title))

/-- Strategy 3 of `findAlbumMatch`: the DistroKid albumuuid recorded in
refs (note: the source applies no entity-type filter here). -/
def uuidStrategy (incoming : DkIncomingAlbum) (it : Item) : Bool :=
  incoming.albumuuid ≠ "" && it.refsDistrokidAlbumuuid = incoming.albumuuid

/-! ## Concrete inputs for witnesses and counterexamples -/

/-- Two albums sharing release date and title; only the second has the
incoming trackCount. -/
def c1A1 : Item :=
  { emptyItem with
    id := "a1", type := "album", title := "x",
    releaseDate := "2024-01-01", trackCount := some 5 }

def c1A2 : Item :=
  { emptyItem with
    id := "a2", type := "album", title := "x",
    releaseDate := "2024-01-01", trackCount := some 3 }

def c1Inc : DkIncomingAlbum :=
  { id := "distrokid-album-u1", title := "x", artist := "",
    releaseDate := "2024-01-01", cover := "", trackCount := some 3,
    upc := "", tags := [], links := [], albumuuid := "" }

def c1Wdk : Item :=
  { emptyItem with
    id := "dk1", type := "album", title := "y",
    trackCount := some 3 }

def c1Wb1 : Item :=
  { emptyItem with
    id := "n1", type := "album", title := "y",
    trackCount := some 9 }

def c1Wb2 : Item :=
  { emptyItem with
    id := "n2", type := "album", title := "y",
    trackCount := some 3 }

/-- A track with ISRC `USX1` living in collection `c1`. -/
def c2T1 : Item :=
  { emptyItem with
    id := "t1", type := "song", title := "Song",
    collectionId := "c1", isrc := "USX1" }

def c2Meta : AlbumMetaT :=
  { albumuuid := "u-2", title := "B", artist := "A",
    releaseDate := "2024-02-02", cover := "cov2" }

def c2Tr : ParsedTrack := { trackNo := some 1, title := "Song", isrc := "USX1" }

def c3E : Item :=
  { emptyItem with
    id := "a1", type := "album", title := "Spring",
    upc := "UPC1", releaseDate := "2024-01-01" }

def c3I : DkIncomingAlbum :=
  { id := "distrokid-album-u3", title := "Autumn", artist := "B",
    releaseDate := "2025-05-05", cover := "c", trackCount := none,
    upc := "UPC2", tags := [], links := [], albumuuid := "u3" }

/-- An incoming NetEase album whose title repeats one of the fixed tags,
so its tag list carries a duplicate. -/
def c4R : NeAlbumIncoming :=
  { id := "netease-album-1", title := "netease", artist := "A",
    releaseDate := "2024-01-01", cover := "", trackCount := none,
    tags := ["netease", "album", "netease"],
    links := [{ platform := "netease", label := "l", url := "u" }],
    embeds := [] }

/-- A well-formed incoming NetEase album (no duplicate tags/links). -/
def c4W : NeAlbumIncoming :=
  { id := "netease-album-2", title := "Spring", artist := "A",
    releaseDate := "2024-01-01", cover := "", trackCount := some 2,
    tags := ["netease", "album", "Spring"],
    links := [{ platform := "netease", label := "l", url := "u" }],
    embeds := [] }

/-- A well-formed incoming NetEase song (no duplicate tags/links/embeds). -/
def c4WS : NeSongIncoming :=
  { id := "netease-song-2", title := "Spring", artist := "A",
    releaseDate := "2024-01-01", cover := "",
    collectionId := "netease-album-2",
    tags := ["netease", "song"],
    links := [{ platform := "netease", label := "l", url := "u" }],
    embeds := [{ platform := "netease", label := "l", url := "eu",
                 height := none }] }

def c5E : Item :=
  { emptyItem with
    id := "t1", type := "song", title := "Song A",
    isrc := "USXYZ1234567" }

def c5I : NeSongIncoming :=
  { id := "t1", title := "Song A (Remix Edit)", artist := "A",
    releaseDate := "", cover := "", collectionId := "c", tags := [],
    links := [], embeds := [] }

def c7AlbumA : Item :=
  { emptyItem with
    id := "colA", type := "album", title := "Alpha" }

def c7AlbumB : Item :=
  { emptyItem with
    id := "colB", type := "album", title := "Beta" }

def c7S1 : Item :=
  { emptyItem with
    id := "s1", type := "song", title := "Intro",
    collectionId := "colA" }

def c7S2 : Item :=
  { emptyItem with
    id := "s2", type := "song", title := "Intro",
    collectionId := "colB" }

def c7Items : List Item := [c7AlbumA, c7AlbumB, c7S1, c7S2]

/-- An enrichment batch holding only a bare-title lyric for "Intro". -/
def c7Maps : LmMaps :=
  { lyricByTitle := [("intro", "la la")]
    metaByTitle := []
    moodByTitle := []
    lyricByAlbumTitle := []
    metaByAlbumTitle := []
    moodByAlbumTitle := []
    albumStyleTagsByTitle := [] }

/-- Maps for the amended-claim witness: a bare-title mood and lyric for
"Intro" (and nothing composite-keyed). -/
def c7WMaps : LmMaps :=
  { lyricByTitle := [("intro", "la la")]
    metaByTitle := []
    moodByTitle := [("intro", "calm")]
    lyricByAlbumTitle := []
    metaByAlbumTitle := []
    moodByAlbumTitle := []
    albumStyleTagsByTitle := [] }

/-- A stored song used to witness the collection-scoped title match. -/
def c2WT : Item :=
  { emptyItem with
    id := "w1", type := "song", title := "Hello", collectionId := "cW" }

/-- A stored song whose title normalizes to the empty key. -/
def c9T0 : Item :=
  { emptyItem with
    id := "t0", type := "song", title := " ",
    collectionId := "c" }

def c10E : Item :=
  { emptyItem with
    id := "isrc-USX9", type := "song", title := "Keep Me",
    collectionId := "other-col", trackNo := some 7, lyrics := "line" }

def c10I : DkIncomingTrack :=
  { id := "isrc-USX9", title := "Keep Me (New)", artist := "A",
    releaseDate := "2024-03-03", cover := "c", collectionId := "new-col",
    isrc := "USX9", tags := ["distrokid", "song"], links := [],
    albumuuid := "u9" }

/-- The by-platform map invariant of the DistroKid `mergeLinks`: keys are
distinct and each stored link's normalized platform key is its map key. -/
def LinkMapInv (m : List (String × Link)) : Prop :=
  (m.map Prod.fst).Nodup ∧ ∀ p ∈ m, platformKey p.2.platform = p.1

/-- The `seen`-key set after the dedup loop has walked `L` (proof
helper for the dedup lemmas). -/
def seenAfter {α K : Type} [DecidableEq K] (κ : α → Option K) :
    List α → List K → List K
  | [], s => s
  | a :: as, s =>
    match κ a with
    | none => seenAfter κ as s
    | some k => if k ∈ s then seenAfter κ as s else seenAfter κ as (k :: s)

/-! ## Helper lemmas -/

theorem charToNat_ofNat (n : Nat) (h : Nat.isValidChar n) :
    (Char.ofNat n).toNat = n := by
  have hv : Nat.isValidChar n := h
  unfold Char.ofNat
  rw [dif_pos hv]
  unfold Char.ofNatAux
  simp [Char.toNat, UInt32.toNat, UInt32.ofNatCore]

theorem isJsWs_jsLowerChar (c : Char) : isJsWs (jsLowerChar c) = isJsWs c := by
  unfold jsLowerChar
  split_ifs with h
  · rcases h with h | h
    · unfold isJsWs
      rw [charToNat_ofNat (c.toNat + 32) (Or.inl (by omega)), Bool.eq_iff_iff]
      simp only [decide_eq_true_eq]
      omega
    · unfold isJsWs
      rw [charToNat_ofNat (c.toNat + 32) (Or.inr ⟨by omega, by omega⟩), Bool.eq_iff_iff]
      simp only [decide_eq_true_eq]
      omega
  · rfl

theorem isAttachStripChar_jsLowerChar (c : Char) :
    isAttachStripChar (jsLowerChar c) = isAttachStripChar c := by
  unfold jsLowerChar
  split_ifs with h
  · rcases h with h | h
    · unfold isAttachStripChar isDkClassChar isJsWs
      rw [charToNat_ofNat (c.toNat + 32) (Or.inl (by omega)), Bool.eq_iff_iff]
      simp only [Bool.or_eq_true, decide_eq_true_eq]
      omega
    · unfold isAttachStripChar isDkClassChar isJsWs
      rw [charToNat_ofNat (c.toNat + 32) (Or.inr ⟨by omega, by omega⟩), Bool.eq_iff_iff]
      simp only [Bool.or_eq_true, decide_eq_true_eq]
      omega
  · rfl

/-- On ASCII characters the modelled NFKC mapping is the identity. -/
theorem nfkcChar_ascii {c : Char} (h : c.toNat < 128) : nfkcChar c = c := by
  unfold nfkcChar
  split_ifs with h1 h2
  · omega
  · omega
  · rfl

/-- Dropping a `q`-prefix does not change a `p`-filter when `q`-characters
never pass `p`. -/
theorem filter_dropWhile {p q : Char → Bool}
    (h : ∀ c, q c = true → p c = false) :
    ∀ l : List Char, (l.dropWhile q).filter p = l.filter p := by
  intro l
  induction l with
  | nil => rfl
  | cons c cs ih =>
    by_cases hq : q c = true
    · rw [List.dropWhile_cons, if_pos hq, ih, List.filter_cons, if_neg]
      simp [h c hq]
    · rw [List.dropWhile_cons, if_neg hq]

/-- Trimming does not change a `p`-filter when whitespace never passes
`p`. -/
theorem filter_trimChars {p : Char → Bool}
    (h : ∀ c, isJsWs c = true → p c = false) (l : List Char) :
    (trimChars l).filter p = l.filter p := by
  unfold trimChars
  rw [List.filter_reverse, filter_dropWhile h, List.filter_reverse,
    List.reverse_reverse, filter_dropWhile h]

/-- Normal form of `platformKey`: lowercase the characters that survive
the whitespace filter (the trim is absorbed by the filter, and
lowercasing preserves whitespace-ness). -/
theorem platformKey_eq (s : String) :
    platformKey s = ⟨(s.data.filter (fun c => !isJsWs c)).map jsLowerChar⟩ := by
  unfold platformKey
  congr 1
  rw [List.filter_map]
  have hc : ((fun c => !isJsWs c) ∘ jsLowerChar) = (fun c => !isJsWs c) := by
    funext c
    simp [Function.comp, isJsWs_jsLowerChar]
  rw [hc, filter_trimChars (fun c hw => by simp [hw])]

theorem platformKey_jsTrim (s : String) :
    platformKey (jsTrim s) = platformKey s := by
  rw [platformKey_eq, platformKey_eq]
  show (⟨((trimChars s.data).filter (fun c => !isJsWs c)).map jsLowerChar⟩ : String) = _
  rw [filter_trimChars (fun c hw => by simp [hw])]

theorem mapSetLink_inv {m : List (String × Link)} {k : String} {v : Link}
    (hm : LinkMapInv m) (hv : platformKey v.platform = k) :
    LinkMapInv (mapSetLink m k v) := by
  obtain ⟨h1, h2⟩ := hm
  unfold mapSetLink
  split_ifs with hany
  · constructor
    · have : (m.map (fun p => if p.1 = k then (k, v) else p)).map Prod.fst
          = m.map Prod.fst := by
        rw [List.map_map]
        refine List.map_congr_left (fun p _ => ?_)
        by_cases hp : p.1 = k <;> simp [hp]
      rw [this]
      exact h1
    · intro p hp
      obtain ⟨q, hq, hqe⟩ := List.mem_map.mp hp
      by_cases hqk : q.1 = k
      · rw [if_pos hqk] at hqe
        rw [← hqe]
        exact hv
      · rw [if_neg hqk] at hqe
        rw [← hqe]
        exact h2 q hq
  · have hall : ∀ q ∈ m, ¬(q.1 = k) := by
      intro q hq hqk
      exact hany (List.any_eq_true.mpr ⟨q, hq, by simp [hqk]⟩)
    constructor
    · rw [List.map_append, List.nodup_append]
      refine ⟨h1, List.nodup_singleton k, fun a ha hb => ?_⟩
      simp only [List.map, List.mem_singleton] at hb
      subst hb
      obtain ⟨q, hq, hqe⟩ := List.mem_map.mp ha
      exact hall q hq hqe
    · intro p hp
      rcases List.mem_append.mp hp with hold | hnew
      · exact h2 p hold
      · simp only [List.mem_singleton] at hnew
        subst hnew
        exact hv

theorem mapGetLink_key {m : List (String × Link)} {k : String} {v : Link}
    (hm : LinkMapInv m) (h : mapGetLink m k = some v) :
    platformKey v.platform = k := by
  unfold mapGetLink at h
  rcases hf : m.find? (fun p => p.1 = k) with _ | q
  · rw [hf] at h
    exact absurd h (by simp)
  · rw [hf] at h
    simp only [Option.map_some', Option.some.injEq] at h
    have hq := List.find?_some hf
    simp only [decide_eq_true_eq] at hq
    have := hm.2 q (List.mem_of_find?_eq_some hf)
    rw [← h, this, hq]

theorem dkLinksExistingStep_inv {m : List (String × Link)} {l : Link}
    (hm : LinkMapInv m) : LinkMapInv (dkLinksExistingStep m l) := by
  simp only [dkLinksExistingStep]
  split_ifs with hp
  · exact hm
  · exact mapSetLink_inv hm rfl

theorem dkLinksIncomingStep_inv {m : List (String × Link)} {l : Link}
    (hm : LinkMapInv m) : LinkMapInv (dkLinksIncomingStep m l) := by
  simp only [dkLinksIncomingStep]
  split_ifs with hp
  · exact hm
  · rcases hg : mapGetLink m (platformKey (canonicalPlatform l)) with _ | prev
    · simp only [hg]
      exact mapSetLink_inv hm rfl
    · simp only [hg]
      have hprev := mapGetLink_key hm hg
      apply mapSetLink_inv hm
      split_ifs <;> exact hprev

theorem foldl_linkMapInv {step : List (String × Link) → Link → List (String × Link)}
    (hstep : ∀ m l, LinkMapInv m → LinkMapInv (step m l)) :
    ∀ (ls : List Link) (m : List (String × Link)),
    LinkMapInv m → LinkMapInv (ls.foldl step m) := by
  intro ls
  induction ls with
  | nil => exact fun m hm => hm
  | cons l ls ih => exact fun m hm => ih _ (hstep m l hm)

/-- The embed dedup of the attach script leaves at most one embed per
(normalized platform key, url) pair, none of them already seen. -/
theorem mergeEmbedsAttachAux_nodup : ∀ (L : List Embed)
    (s : List (String × String)),
    ((mergeEmbedsAttachAux L s).map
      (fun e => (platformKey e.platform, e.url))).Nodup ∧
    (∀ x ∈ mergeEmbedsAttachAux L s, (platformKey x.platform, x.url) ∉ s) := by
  intro L
  induction L with
  | nil => exact fun s => ⟨List.nodup_nil, by simp [mergeEmbedsAttachAux]⟩
  | cons e es ih =>
    intro s
    unfold mergeEmbedsAttachAux
    split_ifs with h1 h2
    · exact ih s
    · exact ih s
    · obtain ⟨ihn, ihs⟩ := ih ((platformKey e.platform, e.url) :: s)
      constructor
      · simp only [List.map_cons, List.nodup_cons]
        refine ⟨fun hmem => ?_, ihn⟩
        obtain ⟨x, hx, hxe⟩ := List.mem_map.mp hmem
        have := ihs x hx
        rw [hxe] at this
        rw [platformKey_jsTrim] at this
        exact this (List.mem_cons_self _ _)
      · intro x hx
        rcases List.mem_cons.mp hx with rfl | hmem
        · show (platformKey (jsTrim e.platform), e.url) ∉ s
          rw [platformKey_jsTrim]
          exact h2
        · intro hscontra
          exact (ihs x hmem) (List.mem_cons_of_mem _ hscontra)

section DedupLemmas

variable {α K : Type} [DecidableEq K] {κ : α → Option K}

theorem dedupAux_append : ∀ (X Y : List α) (s : List K),
    dedupAux κ (X ++ Y) s = dedupAux κ X s ++ dedupAux κ Y (seenAfter κ X s) := by
  intro X
  induction X with
  | nil => intro Y s; rfl
  | cons a X ih =>
    intro Y s
    rcases hκ : κ a with _ | k
    · simp only [List.cons_append, dedupAux, seenAfter, hκ]
      exact ih Y s
    · by_cases hk : k ∈ s
      · simp only [List.cons_append, dedupAux, seenAfter, hκ, if_pos hk]
        exact ih Y s
      · simp only [List.cons_append, dedupAux, seenAfter, hκ, if_neg hk]
        exact congrArg (List.cons a) (ih Y (k :: s))

theorem mem_seenAfter : ∀ (X : List α) (s : List K) (k : K),
    k ∈ seenAfter κ X s ↔ k ∈ s ∨ ∃ x ∈ X, κ x = some k := by
  intro X
  induction X with
  | nil => intro s k; simp [seenAfter]
  | cons a X ih =>
    intro s k
    rcases hκ : κ a with _ | k'
    · simp only [seenAfter, hκ]
      rw [ih]
      simp only [List.mem_cons]
      constructor
      · rintro (hs | ⟨x, hx, he⟩)
        · exact Or.inl hs
        · exact Or.inr ⟨x, Or.inr hx, he⟩
      · rintro (hs | ⟨x, hx' | hx, he⟩)
        · exact Or.inl hs
        · rw [hx'] at he; rw [hκ] at he; cases he
        · exact Or.inr ⟨x, hx, he⟩
    · by_cases hk : k' ∈ s
      · simp only [seenAfter, hκ, if_pos hk]
        rw [ih]
        constructor
        · rintro (hs | ⟨x, hx, he⟩)
          · exact Or.inl hs
          · exact Or.inr ⟨x, List.mem_cons_of_mem _ hx, he⟩
        · rintro (hs | ⟨x, hx, he⟩)
          · exact Or.inl hs
          · rcases List.mem_cons.mp hx with rfl | hx'
            · rw [hκ] at he
              cases he
              exact Or.inl hk
            · exact Or.inr ⟨x, hx', he⟩
      · simp only [seenAfter, hκ, if_neg hk]
        rw [ih]
        simp only [List.mem_cons]
        constructor
        · rintro ((he | hs) | ⟨x, hx, he⟩)
          · exact Or.inr ⟨a, Or.inl rfl, by rw [hκ, he]⟩
          · exact Or.inl hs
          · exact Or.inr ⟨x, Or.inr hx, he⟩
        · rintro (hs | ⟨x, hx' | hx, he⟩)
          · exact Or.inl (Or.inr hs)
          · rw [hx'] at he; rw [hκ] at he; cases he; exact Or.inl (Or.inl rfl)
          · exact Or.inr ⟨x, hx, he⟩

theorem dedupAux_nil_of_seen : ∀ (Y : List α) (s : List K),
    (∀ y ∈ Y, ∀ k, κ y = some k → k ∈ s) → dedupAux κ Y s = [] := by
  intro Y
  induction Y with
  | nil => intro s _; rfl
  | cons y Y ih =>
    intro s h
    rcases hκ : κ y with _ | k
    · simp only [dedupAux, hκ]
      exact ih s (fun y' hy' => h y' (List.mem_cons_of_mem _ hy'))
    · simp only [dedupAux, hκ, if_pos (h y (List.mem_cons_self _ _) k hκ)]
      exact ih s (fun y' hy' => h y' (List.mem_cons_of_mem _ hy'))

theorem dedupAux_eq_self : ∀ (X : List α) (s : List K),
    X.Pairwise (fun a b => κ a ≠ κ b) →
    (∀ x ∈ X, ∃ k, κ x = some k ∧ k ∉ s) →
    dedupAux κ X s = X := by
  intro X
  induction X with
  | nil => intro s _ _; rfl
  | cons a X ih =>
    intro s hp hx
    obtain ⟨k, hk, hks⟩ := hx a (List.mem_cons_self _ _)
    simp only [dedupAux, hk, if_neg hks]
    congr 1
    apply ih (k :: s) (List.Pairwise.of_cons hp)
    intro x hxm
    obtain ⟨k', hk', hk's⟩ := hx x (List.mem_cons_of_mem _ hxm)
    refine ⟨k', hk', fun hc => ?_⟩
    rcases List.mem_cons.mp hc with rfl | hc'
    · exact (List.rel_of_pairwise_cons hp hxm) (by rw [hk, hk'])
    · exact hk's hc'

theorem dedupAux_keys : ∀ (L : List α) (s : List K),
    (dedupAux κ L s).Pairwise (fun a b => κ a ≠ κ b) ∧
    (∀ x ∈ dedupAux κ L s, ∃ k, κ x = some k ∧ k ∉ s) := by
  intro L
  induction L with
  | nil => intro s; exact ⟨List.Pairwise.nil, by simp [dedupAux]⟩
  | cons a L ih =>
    intro s
    rcases hκ : κ a with _ | k
    · simp only [dedupAux, hκ]
      exact ih s
    · by_cases hk : k ∈ s
      · simp only [dedupAux, hκ, if_pos hk]
        exact ih s
      · simp only [dedupAux, hκ, if_neg hk]
        obtain ⟨ihp, ihx⟩ := ih (k :: s)
        constructor
        · refine List.pairwise_cons.mpr ⟨fun x hx => ?_, ihp⟩
          obtain ⟨k', hk', hk's⟩ := ihx x hx
          rw [hκ, hk']
          intro he
          cases he
          exact hk's (List.mem_cons_self _ _)
        · intro x hx
          rcases List.mem_cons.mp hx with rfl | hx'
          · exact ⟨k, hκ, hk⟩
          · obtain ⟨k', hk', hk's⟩ := ihx x hx'
            exact ⟨k', hk', fun hc => hk's (List.mem_cons_of_mem _ hc)⟩

theorem dedupAux_keys_covered : ∀ (L : List α) (s : List K) (k : K),
    (∃ y ∈ L, κ y = some k) →
    k ∈ s ∨ ∃ x ∈ dedupAux κ L s, κ x = some k := by
  intro L
  induction L with
  | nil => intro s k h; obtain ⟨y, hy, _⟩ := h; exact absurd hy (List.not_mem_nil y)
  | cons a L ih =>
    intro s k h
    obtain ⟨y, hy, hκy⟩ := h
    rcases hκ : κ a with _ | ka
    · simp only [dedupAux, hκ]
      rcases List.mem_cons.mp hy with rfl | hy'
      · rw [hκ] at hκy; cases hκy
      · exact ih s k ⟨y, hy', hκy⟩
    · by_cases hka : ka ∈ s
      · simp only [dedupAux, hκ, if_pos hka]
        rcases List.mem_cons.mp hy with rfl | hy'
        · rw [hκ] at hκy
          cases hκy
          exact Or.inl hka
        · exact ih s k ⟨y, hy', hκy⟩
      · simp only [dedupAux, hκ, if_neg hka]
        rcases List.mem_cons.mp hy with rfl | hy'
        · rw [hκ] at hκy
          cases hκy
          exact Or.inr ⟨y, List.mem_cons_self _ _, hκ⟩
        · rcases ih (ka :: s) k ⟨y, hy', hκy⟩ with hin | ⟨x, hx, he⟩
          · rcases List.mem_cons.mp hin with rfl | hs'
            · exact Or.inr ⟨a, List.mem_cons_self _ _, hκ⟩
            · exact Or.inl hs'
          · exact Or.inr ⟨x, List.mem_cons_of_mem _ hx, he⟩

/-- Re-merging the already-merged list with the same incoming list is a
no-op. -/
theorem dedup_merge_idem (E B : List α) :
    dedupAux κ (dedupAux κ (E ++ B) [] ++ B) [] = dedupAux κ (E ++ B) [] := by
  rw [dedupAux_append]
  have h1 : dedupAux κ (dedupAux κ (E ++ B) []) [] = dedupAux κ (E ++ B) [] := by
    apply dedupAux_eq_self _ _ (dedupAux_keys (E ++ B) []).1
    intro x hx
    obtain ⟨k, hk, _⟩ := (dedupAux_keys (E ++ B) []).2 x hx
    exact ⟨k, hk, List.not_mem_nil k⟩
  have h2 : dedupAux κ B (seenAfter κ (dedupAux κ (E ++ B) []) []) = [] := by
    apply dedupAux_nil_of_seen
    intro y hy k hκy
    rw [mem_seenAfter]
    rcases dedupAux_keys_covered (E ++ B) [] k
        ⟨y, List.mem_append_right E hy, hκy⟩ with hin | hex
    · exact absurd hin (List.not_mem_nil k)
    · exact Or.inr hex
  rw [h1, h2, List.append_nil]

/-- Merging a clean list with itself gives the list back. -/
theorem dedup_self_clean (A : List α)
    (hp : A.Pairwise (fun a b => κ a ≠ κ b))
    (hs : ∀ x ∈ A, κ x ≠ none) :
    dedupAux κ (A ++ A) [] = A := by
  rw [dedupAux_append]
  have h1 : dedupAux κ A [] = A := by
    apply dedupAux_eq_self _ _ hp
    intro x hx
    rcases hk : κ x with _ | k
    · exact absurd hk (hs x hx)
    · exact ⟨k, rfl, List.not_mem_nil k⟩
  have h2 : dedupAux κ A (seenAfter κ A []) = [] := by
    apply dedupAux_nil_of_seen
    intro y hy k hκy
    rw [mem_seenAfter]
    exact Or.inr ⟨y, hy, hκy⟩
  rw [h1, h2, List.append_nil]

end DedupLemmas

section SetFromListLemmas

theorem foldl_sfl_nodup : ∀ (l acc : List String), (acc ++ l).Nodup →
    l.foldl (fun acc t => if t ∈ acc then acc else acc ++ [t]) acc =
      acc ++ l := by
  intro l
  induction l with
  | nil => intro acc _; simp
  | cons t l ih =>
    intro acc h
    have ht : t ∉ acc := by
      intro hc
      exact (List.disjoint_of_nodup_append h) hc (List.mem_cons_self t l)
    simp only [List.foldl_cons, if_neg ht]
    rw [ih (acc ++ [t]) (by simpa using h)]
    simp

theorem setFromList_of_nodup {l : List String} (h : l.Nodup) :
    setFromList l = l :=
  foldl_sfl_nodup l [] (by simpa using h)

theorem foldl_sfl_no_new : ∀ (l acc : List String), (∀ t ∈ l, t ∈ acc) →
    l.foldl (fun acc t => if t ∈ acc then acc else acc ++ [t]) acc = acc := by
  intro l
  induction l with
  | nil => intro acc _; rfl
  | cons t l ih =>
    intro acc h
    simp only [List.foldl_cons, if_pos (h t (List.mem_cons_self _ _))]
    exact ih acc (fun t' ht' => h t' (List.mem_cons_of_mem _ ht'))

theorem addTags_self {l : List String} (h1 : l.Nodup) (h2 : "" ∉ l) :
    addTags l l = l := by
  unfold addTags
  have hf : l.filter (fun t => t ≠ "") = l := by
    rw [List.filter_eq_self]
    intro t ht
    simp only [ne_eq, decide_not, Bool.not_eq_true', decide_eq_false_iff_not]
    intro he
    exact h2 (he ▸ ht)
  rw [hf]
  unfold setFromList
  rw [List.foldl_append]
  rw [show l.foldl (fun acc t => if t ∈ acc then acc else acc ++ [t]) [] = l
    from foldl_sfl_nodup l [] (by simpa using h1)]
  exact foldl_sfl_no_new l l (fun t ht => ht)

end SetFromListLemmas

theorem itemExt (a b : Item)
    (h1 : a.id = b.id) (h2 : a.type = b.type) (h3 : a.title = b.title)
    (h4 : a.artist = b.artist) (h5 : a.releaseDate = b.releaseDate)
    (h6 : a.cover = b.cover) (h7 : a.collectionId = b.collectionId)
    (h8 : a.isrc = b.isrc) (h9 : a.upc = b.upc)
    (h10 : a.trackCount = b.trackCount) (h11 : a.trackNo = b.trackNo)
    (h12 : a.tags = b.tags) (h13 : a.links = b.links)
    (h14 : a.embeds = b.embeds)
    (h15 : a.refsDistrokidAlbumuuid = b.refsDistrokidAlbumuuid)
    (h16 : a.refsNeteaseAlbumId = b.refsNeteaseAlbumId)
    (h17 : a.lyrics = b.lyrics) (h18 : a.mood = b.mood)
    (h19 : a.duration = b.duration) (h20 : a.version = b.version)
    (h21 : a.createdAt = b.createdAt) (h22 : a.inspiration = b.inspiration)
    (h23 : a.styleTags = b.styleTags) : a = b := by
  cases a
  cases b
  simp_all

set_option maxHeartbeats 4000000 in
/-- `mergeAlbumSync e i` written out as one record: the spread puts the
incoming value in every key the incoming record carries, and the
fill-missing conditionals can only re-assign that same value, so the
result does not depend on the conditions at all. -/
theorem mergeAlbumSync_eq (e : Item) (i : NeAlbumIncoming) :
    mergeAlbumSync e i = { e with
      id := i.id, type := "album", title := i.title, artist := i.artist,
      releaseDate := i.releaseDate, cover := i.cover,
      trackCount := i.trackCount,
      tags := addTags i.tags i.tags,
      links := mergeLinksSync e.links i.links,
      embeds := i.embeds } := by
  simp only [mergeAlbumSync]
  split_ifs <;> rfl

set_option maxHeartbeats 4000000 in
/-- `mergeSong e i` written out as one record; only `collectionId` still
looks at the existing record (its fallback chain), every other incoming
key is spread-valued. -/
theorem mergeSong_eq (e : Item) (i : NeSongIncoming) :
    mergeSong e i = { e with
      id := i.id, type := "song", title := i.title, artist := i.artist,
      releaseDate := i.releaseDate, cover := i.cover,
      collectionId :=
        if i.collectionId ≠ "" then i.collectionId
        else if e.collectionId ≠ "" then e.collectionId else "",
      tags := addTags i.tags i.tags,
      links := mergeLinksSync e.links i.links,
      embeds := mergeEmbedsSync e.embeds i.embeds } := by
  simp only [mergeSong]
  split_ifs <;> rfl

theorem any_of_getById_some {items : List Item} {i : String} {v : Item}
    (h : getById items i = some v) :
    items.any (fun it => it.id = i) = true := by
  unfold getById at h
  have hm := List.mem_of_find?_eq_some h
  have hp := List.find?_some h
  exact List.any_eq_true.mpr ⟨v, hm, hp⟩

theorem any_eq_false_of_getById_none {items : List Item} {i : String}
    (h : getById items i = none) :
    items.any (fun it => it.id = i) = false := by
  unfold getById at h
  rw [List.find?_eq_none] at h
  rw [List.any_eq_false]
  intro x hx
  simpa using h x hx

theorem getById_append_self {items : List Item} {x : Item}
    (h : getById items x.id = none) :
    getById (items ++ [x]) x.id = some x := by
  unfold getById at *
  induction items with
  | nil => simp [List.find?]
  | cons a l ih =>
    simp only [List.find?_cons] at h ⊢
    by_cases hpa : a.id = x.id
    · simp [hpa] at h
    · simp only [List.cons_append, List.find?_cons, hpa, decide_False] at h ⊢
      exact ih h

theorem setById_append_of_not_found {items : List Item} {x : Item}
    (h : items.any (fun it => it.id = x.id) = false) :
    setById items x = items ++ [x] := by
  unfold setById
  rw [if_neg]
  simp [h]

theorem find?_map_setById : ∀ (items : List Item) (x : Item),
    items.any (fun it => it.id = x.id) = true →
    (items.map (fun it => if it.id = x.id then x else it)).find?
      (fun it => it.id = x.id) = some x := by
  intro items x
  induction items with
  | nil => intro h; simp at h
  | cons a l ih =>
    intro h
    by_cases ha : a.id = x.id
    · simp [List.find?_cons, ha]
    · have hl : l.any (fun it => it.id = x.id) = true := by
        simp only [List.any_cons, Bool.or_eq_true] at h
        rcases h with h' | h'
        · exact absurd (by simpa using h') ha
        · exact h'
      rw [List.map_cons, if_neg ha,
        List.find?_cons_of_neg _ (by simpa using ha)]
      exact ih hl

theorem getById_setById {items : List Item} {x : Item}
    (h : items.any (fun it => it.id = x.id) = true) :
    getById (setById items x) x.id = some x := by
  unfold setById getById
  rw [if_pos h]
  exact find?_map_setById items x h

theorem setById_eq_self {items : List Item} {x : Item}
    (hany : items.any (fun it => it.id = x.id) = true)
    (hall : ∀ it ∈ items, it.id = x.id → it = x) :
    setById items x = items := by
  unfold setById
  rw [if_pos hany]
  have he : items.map (fun it => if it.id = x.id then x else it) =
      items.map id := by
    refine List.map_congr_left (fun it hit => ?_)
    by_cases h : it.id = x.id
    · rw [if_pos h]
      exact (hall it hit h).symm
    · rw [if_neg h]
      rfl
  rw [he, List.map_id]

theorem setById_mem_matching {l : List Item} {M : Item} :
    ∀ it ∈ setById l M, it.id = M.id → it = M := by
  unfold setById
  split_ifs with hany
  · intro it hit hid
    obtain ⟨q, hq, hqe⟩ := List.mem_map.mp hit
    by_cases hqk : q.id = M.id
    · rw [if_pos hqk] at hqe
      exact hqe.symm
    · rw [if_neg hqk] at hqe
      subst hqe
      exact absurd hid hqk
  · intro it hit hid
    rcases List.mem_append.mp hit with hold | hnew
    · exact absurd (List.any_eq_true.mpr ⟨it, hold, by simp [hid]⟩) hany
    · simpa using hnew

/-- Re-merging a freshly inserted clean album record is a no-op. -/
theorem mergeAlbumSync_toItem (R : NeAlbumIncoming)
    (h1 : R.tags.Nodup) (h2 : "" ∉ R.tags)
    (h3 : R.links.Pairwise (fun a b => linkKeySync a ≠ linkKeySync b))
    (h4 : ∀ l ∈ R.links, linkKeySync l ≠ none) :
    mergeAlbumSync (neAlbumToItem R) R = neAlbumToItem R := by
  rw [mergeAlbumSync_eq]
  apply itemExt <;>
    simp [neAlbumToItem, emptyItem, addTags_self h1 h2, mergeLinksSync,
      dedup_self_clean R.links h3 h4]

/-- Re-merging a freshly inserted clean song record is a no-op. -/
theorem mergeSong_toItem (R : NeSongIncoming)
    (h1 : R.tags.Nodup) (h2 : "" ∉ R.tags)
    (h3 : R.links.Pairwise (fun a b => linkKeySync a ≠ linkKeySync b))
    (h4 : ∀ l ∈ R.links, linkKeySync l ≠ none)
    (h5 : R.embeds.Pairwise (fun a b => embedKeySync a ≠ embedKeySync b))
    (h6 : ∀ e ∈ R.embeds, embedKeySync e ≠ none) :
    mergeSong (neSongToItem R) R = neSongToItem R := by
  rw [mergeSong_eq]
  by_cases hc : R.collectionId = "" <;>
    (apply itemExt <;>
      simp [neSongToItem, emptyItem, hc, addTags_self h1 h2, mergeLinksSync,
        mergeEmbedsSync, dedup_self_clean R.links h3 h4,
        dedup_self_clean R.embeds h5 h6])

/-- Re-merging an already-merged album record is a no-op
(no cleanliness hypotheses needed: the merge output is already
deduplicated). -/
theorem mergeAlbumSync_merge_merge (prev : Item) (R : NeAlbumIncoming) :
    mergeAlbumSync (mergeAlbumSync prev R) R = mergeAlbumSync prev R := by
  rw [mergeAlbumSync_eq prev R]
  rw [mergeAlbumSync_eq]
  apply itemExt <;>
    simp [mergeLinksSync, dedup_merge_idem]

/-- Re-merging an already-merged song record is a no-op. -/
theorem mergeSong_merge_merge (prev : Item) (R : NeSongIncoming) :
    mergeSong (mergeSong prev R) R = mergeSong prev R := by
  rw [mergeSong_eq prev R]
  rw [mergeSong_eq]
  by_cases hc : R.collectionId = "" <;>
  by_cases hp : prev.collectionId = "" <;>
    (apply itemExt <;>
      simp [hc, hp, mergeLinksSync, mergeEmbedsSync, dedup_merge_idem])

/-- Album upsert of the NetEase sync script is idempotent on clean
incoming records. -/
theorem upsertAlbumSync_idem (C : List Item) (R : NeAlbumIncoming)
    (h1 : R.tags.Nodup) (h2 : "" ∉ R.tags)
    (h3 : R.links.Pairwise (fun a b => linkKeySync a ≠ linkKeySync b))
    (h4 : ∀ l ∈ R.links, linkKeySync l ≠ none) :
    upsertAlbumSync (upsertAlbumSync C R) R = upsertAlbumSync C R := by
  cases hg : getById C R.id with
  | none =>
    have hany := any_eq_false_of_getById_none hg
    have e1 : upsertAlbumSync C R = C ++ [neAlbumToItem R] := by
      unfold upsertAlbumSync
      rw [hg]
      exact setById_append_of_not_found (by simpa [neAlbumToItem] using hany)
    have hg2 : getById (C ++ [neAlbumToItem R]) R.id =
        some (neAlbumToItem R) := by
      have h0 : getById C (neAlbumToItem R).id = none := by
        simpa [neAlbumToItem] using hg
      have h5 := @getById_append_self C (neAlbumToItem R) h0
      simpa [neAlbumToItem] using h5
    rw [e1]
    simp only [upsertAlbumSync, hg2]
    rw [mergeAlbumSync_toItem R h1 h2 h3 h4]
    apply setById_eq_self
    · simp [neAlbumToItem]
    · intro it hit hid
      rcases List.mem_append.mp hit with hC | hx
      · exfalso
        rw [List.any_eq_false] at hany
        have h7 := hany it hC
        simp only [decide_eq_true_eq] at h7
        exact h7 (by simpa [neAlbumToItem] using hid)
      · simpa using hx
  | some prev =>
    have hany : C.any (fun it => it.id = R.id) = true := any_of_getById_some hg
    have e1 : upsertAlbumSync C R = setById C (mergeAlbumSync prev R) := by
      unfold upsertAlbumSync
      rw [hg]
    have hMid : (mergeAlbumSync prev R).id = R.id := by
      rw [mergeAlbumSync_eq]
    have hany' : C.any (fun it => it.id = (mergeAlbumSync prev R).id) =
        true := by
      simp only [hMid]
      exact hany
    have hg2 : getById (setById C (mergeAlbumSync prev R)) R.id =
        some (mergeAlbumSync prev R) := by
      have h5 := getById_setById hany'
      rw [hMid] at h5
      exact h5
    rw [e1]
    simp only [upsertAlbumSync, hg2]
    rw [mergeAlbumSync_merge_merge]
    apply setById_eq_self
    · have h6 := any_of_getById_some hg2
      simp only [hMid]
      exact h6
    · exact setById_mem_matching

/-- Song upsert of the NetEase sync script is idempotent on clean
incoming records. -/
theorem upsertSongSync_idem (C : List Item) (R : NeSongIncoming)
    (h1 : R.tags.Nodup) (h2 : "" ∉ R.tags)
    (h3 : R.links.Pairwise (fun a b => linkKeySync a ≠ linkKeySync b))
    (h4 : ∀ l ∈ R.links, linkKeySync l ≠ none)
    (h5 : R.embeds.Pairwise (fun a b => embedKeySync a ≠ embedKeySync b))
    (h6 : ∀ e ∈ R.embeds, embedKeySync e ≠ none) :
    upsertSongSync (upsertSongSync C R) R = upsertSongSync C R := by
  cases hg : getById C R.id with
  | none =>
    have hany := any_eq_false_of_getById_none hg
    have e1 : upsertSongSync C R = C ++ [neSongToItem R] := by
      unfold upsertSongSync
      rw [hg]
      exact setById_append_of_not_found (by simpa [neSongToItem] using hany)
    have hg2 : getById (C ++ [neSongToItem R]) R.id =
        some (neSongToItem R) := by
      have h0 : getById C (neSongToItem R).id = none := by
        simpa [neSongToItem] using hg
      have h7 := @getById_append_self C (neSongToItem R) h0
      simpa [neSongToItem] using h7
    rw [e1]
    simp only [upsertSongSync, hg2]
    rw [mergeSong_toItem R h1 h2 h3 h4 h5 h6]
    apply setById_eq_self
    · simp [neSongToItem]
    · intro it hit hid
      rcases List.mem_append.mp hit with hC | hx
      · exfalso
        rw [List.any_eq_false] at hany
        have h9 := hany it hC
        simp only [decide_eq_true_eq] at h9
        exact h9 (by simpa [neSongToItem] using hid)
      · simpa using hx
  | some prev =>
    have hany : C.any (fun it => it.id = R.id) = true := any_of_getById_some hg
    have e1 : upsertSongSync C R = setById C (mergeSong prev R) := by
      unfold upsertSongSync
      rw [hg]
    have hMid : (mergeSong prev R).id = R.id := by
      rw [mergeSong_eq]
    have hany' : C.any (fun it => it.id = (mergeSong prev R).id) = true := by
      simp only [hMid]
      exact hany
    have hg2 : getById (setById C (mergeSong prev R)) R.id =
        some (mergeSong prev R) := by
      have h7 := getById_setById hany'
      rw [hMid] at h7
      exact h7
    rw [e1]
    simp only [upsertSongSync, hg2]
    rw [mergeSong_merge_merge]
    apply setById_eq_self
    · have h8 := any_of_getById_some hg2
      simp only [hMid]
      exact h8
    · exact setById_mem_matching

/-- Whitespace always belongs to the attach-script strip class. -/
theorem isJsWs_isAttachStripChar {c : Char} (h : isJsWs c = true) :
    (!isAttachStripChar c) = false := by
  simp [isAttachStripChar, isDkClassChar, h]

/-- On ASCII input the attach `normalizeKey` is exactly: drop the
stripped characters, lowercase the rest. -/
theorem normalizeKeyAttach_ascii (s : String)
    (h : ∀ c ∈ s.data, c.toNat < 128) :
    normalizeKeyAttach s =
      ⟨(s.data.filter (fun c => !isAttachStripChar c)).map jsLowerChar⟩ := by
  unfold normalizeKeyAttach
  congr 1
  have hmap : s.data.map nfkcChar = s.data := by
    rw [List.map_congr_left (fun c hc => nfkcChar_ascii (h c hc))]
    exact List.map_id _
  rw [hmap, List.filter_map]
  have hcomp : ((fun c => !isAttachStripChar c) ∘ jsLowerChar) =
      (fun c => !isAttachStripChar c) := by
    funext c
    simp [Function.comp, isAttachStripChar_jsLowerChar]
  rw [hcomp, filter_trimChars (fun c hw => isJsWs_isAttachStripChar hw)]

theorem find?_false {α : Type} (l : List α) (p : α → Bool)
    (h : ∀ x, p x = false) : l.find? p = none := by
  induction l with
  | nil => rfl
  | cons a as ih => simp [List.find?, h a, ih]

theorem find?_congrP {α : Type} (l : List α) (p q : α → Bool)
    (h : ∀ x, p x = q x) : l.find? p = l.find? q := by
  induction l with
  | nil => rfl
  | cons a as ih =>
    simp only [List.find?, h a]
    cases q a <;> simp [ih]

theorem tcScore_le_two (dk a : Item) : tcScore dk a ≤ 2 := by
  unfold tcScore
  rcases dk.trackCount with _ | x <;> rcases a.trackCount with _ | y <;> simp
  split <;> omega

theorem tcScore_two_iff {dk : Item} {n : Int} (a : Item)
    (h : dk.trackCount = some n) : tcScore dk a = 2 ↔ a.trackCount = some n := by
  unfold tcScore
  rw [h]
  rcases ha : a.trackCount with _ | y
  · simp
  · simp only [Option.some.injEq]
    split <;> (simp_all; try omega)

/-- The best-score fold keeps a score-2 candidate whenever one exists. -/
theorem tcFoldBest (dk : Item) : ∀ (l : List Item) (b : Item × Int),
    (b.2 = 2 → tcScore dk b.1 = 2) → b.2 ≤ 2 →
    ((∃ a ∈ l, tcScore dk a = 2) ∨ b.2 = 2) →
    tcScore dk (l.foldl
      (fun (b : Item × Int) a =>
        if tcScore dk a > b.2 then (a, tcScore dk a) else b) b).1 = 2 := by
  intro l
  induction l with
  | nil =>
    intro b hb _ hd
    rcases hd with ⟨a, ha, _⟩ | h2
    · exact absurd ha (List.not_mem_nil a)
    · exact hb h2
  | cons a as ih =>
    intro b hb hb2 hd
    simp only [List.foldl_cons]
    by_cases hc : tcScore dk a > b.2
    · rw [if_pos hc]
      apply ih
      · intro h2; exact h2
      · exact tcScore_le_two dk a
      · rcases hd with ⟨a', ha', hs'⟩ | h2
        · rcases List.mem_cons.mp ha' with rfl | hmem
          · exact Or.inr hs'
          · exact Or.inl ⟨a', hmem, hs'⟩
        · have := tcScore_le_two dk a
          omega
    · rw [if_neg hc]
      apply ih b hb hb2
      rcases hd with ⟨a', ha', hs'⟩ | h2
      · rcases List.mem_cons.mp ha' with rfl | hmem
        · right; omega
        · exact Or.inl ⟨a', hmem, hs'⟩
      · exact Or.inr h2

/-! ## Claim theorems -/

/-- C1 (amended): `findAlbumMatch` tries the strategies in the fixed
order — exact non-empty UPC, release date + normalized title, DistroKid
albumuuid — falling through exactly when a strategy yields no candidate,
and inside a strategy returns the FIRST candidate in catalog order (no
trackCount preference there); the trackCount tie-break lives in
`pickMatchedAlbum` of the attach script, which prefers a candidate whose
`trackCount` equals the incoming one whenever such a candidate exists
(and otherwise keeps the earliest best-scoring candidate). -/
theorem findAlbumMatch_ordered_and_tiebreak :
    (∀ (items : List Item) (inc : DkIncomingAlbum),
      findAlbumMatch items inc =
        resolveOrdered [upcStrategy inc, dateTitleStrategy inc,
          uuidStrategy inc] items) ∧
    (∀ (dk : Item) (albums : List Item) (n : Int) (m : Item),
      dk.trackCount = some n →
      pickMatchedAlbum dk albums = some m →
      (∃ a ∈ albums.filter (neAlbumCandidate dk), a.trackCount = some n) →
      m.trackCount = some n) := by
  constructor
  · intro items inc
    have e1 : items.find? (upcStrategy inc) =
        (if jsTrim inc.upc ≠ "" then
          items.find? (fun it =>
            (it.type = "album" || it.type = "collection") &&
            it.upc = jsTrim inc.upc)
        else none) := by
      by_cases h : jsTrim inc.upc = ""
      · rw [if_neg (by simp [h])]
        exact find?_false _ _ (fun x => by simp [upcStrategy, h])
      · rw [if_pos h]
        exact find?_congrP _ _ _ (fun x => by simp [upcStrategy, h])
    have e2 : items.find? (dateTitleStrategy inc) =
        (if jsTrim inc.releaseDate ≠ "" && normalizeKeyDk inc.title ≠ "" then
          items.find? (fun it =>
            (it.type = "album" || it.type = "collection") &&
            it.releaseDate = jsTrim inc.releaseDate &&
            normalizeKeyDk it.title = normalizeKeyDk inc.title)
        else none) := by
      by_cases h : jsTrim inc.releaseDate ≠ "" ∧ normalizeKeyDk inc.title ≠ ""
      · rw [if_pos (by simp [h.1, h.2])]
        refine find?_congrP _ _ _ (fun x => ?_)
        simp [dateTitleStrategy, h.1, h.2, Bool.and_assoc]
      · rw [if_neg (by rcases not_and_or.mp h with h' | h' <;>
          simp [not_not.mp h'])]
        refine find?_false _ _ (fun x => ?_)
        rcases not_and_or.mp h with h' | h' <;>
          simp [dateTitleStrategy, not_not.mp h']
    have e3 : items.find? (uuidStrategy inc) =
        (if inc.albumuuid ≠ "" then
          items.find? (fun it => it.refsDistrokidAlbumuuid = inc.albumuuid)
        else none) := by
      by_cases h : inc.albumuuid = ""
      · rw [if_neg (by simp [h])]
        exact find?_false _ _ (fun x => by simp [uuidStrategy, h])
      · rw [if_pos h]
        exact find?_congrP _ _ _ (fun x => by simp [uuidStrategy, h])
    simp only [findAlbumMatch, resolveOrdered, e1, e2, e3]
    generalize (if jsTrim inc.upc ≠ "" then
      items.find? (fun it =>
        (it.type = "album" || it.type = "collection") &&
        it.upc = jsTrim inc.upc)
      else none) = o1
    cases o1 with
    | some m => rfl
    | none =>
      generalize (if jsTrim inc.releaseDate ≠ "" && normalizeKeyDk inc.title ≠ "" then
        items.find? (fun it =>
          (it.type = "album" || it.type = "collection") &&
          it.releaseDate = jsTrim inc.releaseDate &&
          normalizeKeyDk it.title = normalizeKeyDk inc.title)
        else none) = o2
      cases o2 with
      | some m => rfl
      | none =>
        generalize (if inc.albumuuid ≠ "" then
          items.find? (fun it => it.refsDistrokidAlbumuuid = inc.albumuuid)
          else none) = o3
        cases o3 <;> rfl
  · intro dk albums n m hn hp hex
    unfold pickMatchedAlbum at hp
    split_ifs at hp with ht
    rcases hf : albums.filter (neAlbumCandidate dk) with _ | ⟨c, rest⟩
    · rw [hf] at hp hex
      simp at hp
    · rw [hf] at hp hex
      rcases rest with _ | ⟨c2, rest'⟩
      · simp at hp
        obtain ⟨a, ha, hs⟩ := hex
        rcases List.mem_cons.mp ha with rfl | hmem
        · rw [← hp]; exact hs
        · exact absurd hmem (List.not_mem_nil a)
      · simp only [Option.some.injEq] at hp
        obtain ⟨a, ha, hs⟩ := hex
        rw [← hp]
        refine (tcScore_two_iff _ hn).mp ?_
        unfold tcBest
        exact tcFoldBest dk (c :: c2 :: rest') (c, -1) (by omega) (by omega)
          (Or.inl ⟨a, ha, (tcScore_two_iff a hn).mpr hs⟩)

/-- Counterexample for C1 as stated: with two date+title candidates,
`findAlbumMatch` returns the FIRST one in catalog order (`a1`,
trackCount 5) even though the second (`a2`, trackCount 3) matches the
incoming trackCount exactly. -/
theorem findAlbumMatch_ignores_trackCount_tiebreak :
    findAlbumMatch [c1A1, c1A2] c1Inc = some c1A1 ∧
    c1A1.trackCount = some 5 ∧ c1Inc.trackCount = some 3 ∧
    c1A2.trackCount = some 3 ∧ dateTitleStrategy c1Inc c1A2 = true := by
  decide

/-- Witness for C1 (amended): `pickMatchedAlbum` with two candidates
prefers the one whose trackCount (3) equals the incoming one. -/
theorem pickMatchedAlbum_tiebreak_witness :
    pickMatchedAlbum c1Wdk [c1Wb1, c1Wb2] = some c1Wb2 ∧
    c1Wb2.trackCount = some 3 := by
  have hpick : pickMatchedAlbum c1Wdk [c1Wb1, c1Wb2] = some c1Wb2 := by decide
  exact ⟨hpick, findAlbumMatch_ordered_and_tiebreak.2 c1Wdk [c1Wb1, c1Wb2] 3
    c1Wb2 rfl hpick ⟨c1Wb2, by decide, rfl⟩⟩

/-- C2 (amended): non-ISRC track matching considers only songs whose
`collectionId` equals the matched album's id; and the track merge never
changes a matched track's `collectionId`, so an ISRC match — which the
importer runs over the WHOLE catalog — enriches a track of another
collection in place without ever updating its collection link. -/
theorem trackMatch_scoped_and_never_reparents :
    (∀ (items : List Item) (albumId trackTitle albumTitle : String)
      (m : Item),
      findTrackByTitleInAlbum items albumId trackTitle albumTitle = some m →
      m.collectionId = albumId ∧ m.type = "song") ∧
    (∀ (e : Item) (i : DkIncomingTrack),
      (mergeTrack e i).collectionId = e.collectionId) := by
  constructor
  · intro items albumId trackTitle albumTitle m h
    simp only [findTrackByTitleInAlbum] at h
    split_ifs at h with hk
    have hmem : m ∈ items.filter (fun it =>
        it.type = "song" && it.collectionId = albumId) := by
      rcases hfind : (items.filter (fun it =>
          it.type = "song" && it.collectionId = albumId)).find?
          (fun it => normalizeKeyDk it.title =
            normalizeKeyDk (stripAlbumPfx trackTitle albumTitle)) with
        _ | direct
      · rw [hfind] at h
        exact List.mem_of_find?_eq_some h
      · rw [hfind] at h
        simp only [Option.some.injEq] at h
        subst h
        exact List.mem_of_find?_eq_some hfind
    have hpred := (List.mem_filter.mp hmem).2
    simp only [Bool.and_eq_true, decide_eq_true_eq] at hpred
    exact ⟨hpred.2, hpred.1⟩
  · intro e i
    rfl

/-- Witness for C2: a successful in-album title match returns a song of
that very collection. -/
theorem trackMatch_scoped_witness :
    c2WT.collectionId = "cW" ∧ c2WT.type = "song" :=
  trackMatch_scoped_and_never_reparents.1 [c2WT] "cW" "Hello" "" c2WT
    (by decide)

/-- Counterexample for C2 as stated: importing a track with ISRC `USX1`
under album `c2` binds to (and enriches: the cover is filled) the track
`t1` that lives in collection `c1`, while `t1.collectionId` stays `c1` —
the collection link is NOT being updated by the import, yet the
cross-collection ISRC binding happens anyway. -/
theorem isrc_match_binds_across_collections :
    (getById (processTrack [c2T1] "c2" c2Meta [] false c2Tr) "t1").map
      Item.collectionId = some "c1" ∧
    (getById (processTrack [c2T1] "c2" c2Meta [] false c2Tr) "t1").map
      Item.cover = some "cov2" ∧
    ("c1" : String) ≠ "c2" := by decide

/-- C6 (amended): the DistroKid `mergeLinks` groups by normalized
platform key, so its output holds at most one link per normalized
platform key; the attach-script `mergeEmbeds` dedups by (normalized
platform key, url), so its output holds at most one embed per such pair.
(The sync-netease mergers dedup only by the RAW `platform::url` pair —
see the counterexample.) -/
theorem merge_no_duplicate_platform_keys :
    (∀ existing incoming : List Link,
      ((mergeLinksDk existing incoming).map
        (fun l => platformKey l.platform)).Nodup) ∧
    (∀ existing incoming : List Embed,
      ((mergeEmbedsAttach existing incoming).map
        (fun e => (platformKey e.platform, e.url))).Nodup) := by
  constructor
  · intro ex inc
    have hinv : LinkMapInv
        (inc.foldl dkLinksIncomingStep (ex.foldl dkLinksExistingStep [])) :=
      foldl_linkMapInv (fun _ _ => dkLinksIncomingStep_inv) inc _
        (foldl_linkMapInv (fun _ _ => dkLinksExistingStep_inv) ex []
          ⟨List.nodup_nil, by simp⟩)
    show (((inc.foldl dkLinksIncomingStep
      (ex.foldl dkLinksExistingStep [])).map (fun p => p.2)).map
        (fun l => platformKey l.platform)).Nodup
    rw [List.map_map]
    have he : (inc.foldl dkLinksIncomingStep
        (ex.foldl dkLinksExistingStep [])).map
          ((fun l => platformKey l.platform) ∘ (fun p => p.2)) =
        (inc.foldl dkLinksIncomingStep
          (ex.foldl dkLinksExistingStep [])).map Prod.fst :=
      List.map_congr_left (fun p hp => hinv.2 p hp)
    rw [he]
    exact hinv.1
  · intro ex inc
    exact (mergeEmbedsAttachAux_nodup (ex ++ inc) []).1

/-- Counterexample for C6 as stated: the sync-netease `mergeLinks` dedups
by the (platform, url) PAIR, so two links of the same platform with
different urls both survive — the merged list holds two entries for the
normalized platform key "netease". -/
theorem mergeLinksSync_duplicate_platform_key :
    ((mergeLinksSync []
      [{ platform := "netease", label := "", url := "a" },
       { platform := "netease", label := "", url := "b" }]).map
      (fun l => platformKey l.platform)) = ["netease", "netease"] ∧
    ¬ (["netease", "netease"] : List String).Nodup := by decide

/-- C7 (amended): bare-title (fallback) mood and metadata enrichments
under an ambiguous title (key shared by more than one track) are always
skipped and each suppressed attempt adds 1 to the `skippedAmbiguous`
tally; the bare-title LYRICS enrichment is skipped-and-tallied only when
more than one DistroKid-tagged track shares the key, and is applied
otherwise; a composite-keyed (collection-scoped) lyric always takes
precedence and is applied regardless of ambiguity. -/
theorem ambiguity_guard_behavior :
    (∀ (maps : LmMaps) (ow : Bool) (key ck : String) (amb : Bool)
      (it : Item),
      moodAlbumOf maps ck = "" →
      (lget maps.moodByTitle key).getD "" ≠ "" → amb = true →
      enrichMoodStep maps ow key ck amb it = (it, 1)) ∧
    (∀ (maps : LmMaps) (ow : Bool) (key ck : String) (amb : Bool)
      (it : Item) (m : Meta),
      metaAlbumOf maps ck = none →
      lget maps.metaByTitle key = some m → amb = true →
      enrichMetaStep maps ow key ck amb it = (it, 1)) ∧
    (∀ (maps : LmMaps) (items : List Item) (ow : Bool) (key ck : String)
      (amb : Bool) (it : Item) (txt : String),
      lyricAlbumOf maps ck = none →
      lget maps.lyricByTitle key = some txt → amb = true →
      distrokidTitleCountsOf items key > 1 →
      enrichLyricsStep maps items ow key ck amb it = (it, 1)) ∧
    (∀ (maps : LmMaps) (items : List Item) (ow : Bool) (key ck : String)
      (amb : Bool) (it : Item) (txt : String),
      lyricAlbumOf maps ck = none →
      lget maps.lyricByTitle key = some txt → amb = true →
      distrokidTitleCountsOf items key ≤ 1 →
      enrichLyricsStep maps items ow key ck amb it =
        ({ it with lyrics := (maybeSetStr it.lyrics txt ow).1 }, 0)) ∧
    (∀ (maps : LmMaps) (items : List Item) (ow : Bool) (key ck : String)
      (amb : Bool) (it : Item) (txt : String),
      lyricAlbumOf maps ck = some txt →
      enrichLyricsStep maps items ow key ck amb it =
        ({ it with lyrics := (maybeSetStr it.lyrics txt ow).1 }, 0)) := by
  refine ⟨?_, ?_, ?_, ?_, ?_⟩
  · intro maps ow key ck amb it h1 h2 h3
    subst h3
    simp only [enrichMoodStep, h1]
    simp [h2]
  · intro maps ow key ck amb it m h1 h2 h3
    subst h3
    simp only [enrichMetaStep, h1, h2]
    simp
  · intro maps items ow key ck amb it txt h1 h2 h3 h4
    subst h3
    simp only [enrichLyricsStep, h1, h2]
    simp [h4]
  · intro maps items ow key ck amb it txt h1 h2 h3 h4
    subst h3
    simp only [enrichLyricsStep, h1, h2]
    simp [Nat.not_lt.mpr h4]
  · intro maps items ow key ck amb it txt h1
    simp only [enrichLyricsStep, h1]
    simp

/-- Witness for C7: a bare-title mood under an ambiguous key is skipped
and tallied. -/
theorem ambiguity_guard_behavior_witness :
    enrichMoodStep c7WMaps false "intro" "alpha::intro" true c7S1 =
      (c7S1, 1) :=
  ambiguity_guard_behavior.1 c7WMaps false "intro" "alpha::intro" true c7S1
    (by decide) (by decide) rfl

/-- Counterexample for C7 as stated: two unrelated collections each hold
a track titled "Intro" (the key is shared by 2 tracks), the batch holds a
bare-title lyric for "intro", and NEITHER track is DistroKid-tagged — the
enrichment pass writes the lyric into BOTH tracks and the
`skippedAmbiguous` tally stays 0, where the claim demands no track be
modified and the tally grow by 2. -/
theorem ambiguous_bare_title_lyrics_applied :
    (enrichAll c7Maps false c7Items).2 = 0 ∧
    (enrichAll c7Maps false c7Items).1.map Item.lyrics =
      ["", "", "la la", "la la"] ∧
    titleCountsOf c7Items "intro" = 2 := by decide

/-- C10: `mergeTrack` modifies only `type`, `tags`, `links`, `isrc`,
`releaseDate` and `cover`; the track's `id`, `title`, `collectionId`,
`trackNo`, `embeds`, `lyrics` (and every other stored field) are left
exactly as they were — so a track matched by ISRC under a different
collection is enriched in place and never re-parented. -/
theorem mergeTrack_frame : ∀ (e : Item) (i : DkIncomingTrack),
    (mergeTrack e i).id = e.id ∧
    (mergeTrack e i).title = e.title ∧
    (mergeTrack e i).collectionId = e.collectionId ∧
    (mergeTrack e i).trackNo = e.trackNo ∧
    (mergeTrack e i).embeds = e.embeds ∧
    (mergeTrack e i).lyrics = e.lyrics ∧
    (mergeTrack e i).artist = e.artist ∧
    (mergeTrack e i).upc = e.upc ∧
    (mergeTrack e i).trackCount = e.trackCount ∧
    (mergeTrack e i).refsDistrokidAlbumuuid = e.refsDistrokidAlbumuuid ∧
    (mergeTrack e i).refsNeteaseAlbumId = e.refsNeteaseAlbumId ∧
    (mergeTrack e i).mood = e.mood ∧
    (mergeTrack e i).duration = e.duration ∧
    (mergeTrack e i).version = e.version ∧
    (mergeTrack e i).createdAt = e.createdAt ∧
    (mergeTrack e i).inspiration = e.inspiration ∧
    (mergeTrack e i).styleTags = e.styleTags :=
  fun _ _ =>
    ⟨rfl, rfl, rfl, rfl, rfl, rfl, rfl, rfl, rfl, rfl, rfl, rfl, rfl, rfl,
     rfl, rfl, rfl⟩

/-- C3: the DistroKid album merge preserves the existing entity's id,
never replaces a non-empty stored `upc` (first-writer-wins), and keeps
the existing title whenever it is non-empty and not the placeholder. -/
theorem mergeAlbumDk_preserves_identity : ∀ (e : Item) (i : DkIncomingAlbum),
    (mergeAlbumDk e i).id = e.id ∧
    (e.upc ≠ "" → (mergeAlbumDk e i).upc = e.upc) ∧
    (e.title ≠ "" → e.title ≠ "(未命名专辑)" →
      (mergeAlbumDk e i).title = e.title) := by
  intro e i
  refine ⟨rfl, fun h => ?_, fun h1 h2 => ?_⟩
  · show (if e.upc = "" ∧ i.upc ≠ "" then i.upc else e.upc) = e.upc
    simp [h]
  · show (if e.title = "" ∨ e.title = "(未命名专辑)" then i.title else e.title)
      = e.title
    simp [h1, h2]

/-- Witness for C3 at the spec's own scenario: existing album `a1` with
`upc = "UPC1"`, `title = "Spring"`; a later DistroKid import with a
different upc, title and date changes none of them. -/
theorem mergeAlbumDk_preserves_identity_witness :
    (mergeAlbumDk c3E c3I).id = "a1" ∧ (mergeAlbumDk c3E c3I).upc = "UPC1" ∧
    (mergeAlbumDk c3E c3I).title = "Spring" := by
  obtain ⟨h1, h2, h3⟩ := mergeAlbumDk_preserves_identity c3E c3I
  exact ⟨h1.trans rfl, (h2 (by decide)).trans rfl,
    (h3 (by decide) (by decide)).trans rfl⟩

/-- C5 (code bug): `mergeSong` of the NetEase sync spreads the incoming
record over the existing one BEFORE its fill-missing guards run, so a
non-empty existing title IS replaced: merging a track titled "Song A"
with an incoming "Song A (Remix Edit)" changes the stored title, against
the fill-missing contract the dead guards clearly intend. -/
theorem mergeSong_overwrites_nonempty_title :
    c5E.title = "Song A" ∧
    (mergeSong c5E c5I).title = "Song A (Remix Edit)" := by decide

/-- C9 (amended): `safeContainsMatch` matches only with the guard — both
keys at least 2 characters and one contained in the other — and an empty
key on either side never matches. -/
theorem safeContainsMatch_guard : ∀ a b : String,
    (safeContainsMatch a b = true →
      2 ≤ a.data.length ∧ 2 ≤ b.data.length ∧
      (jsIncludes b a || jsIncludes a b) = true) ∧
    safeContainsMatch a "" = false ∧ safeContainsMatch "" b = false := by
  intro a b
  refine ⟨fun h => ?_, ?_, ?_⟩
  · unfold safeContainsMatch at h
    split_ifs at h with h1 h2 h3
    · exact ⟨by omega, by omega, h⟩
  · unfold safeContainsMatch
    simp
  · unfold safeContainsMatch
    simp

/-- Witness for C9: a 2-character key against a 3-character containing
key passes the guard. -/
theorem safeContainsMatch_guard_witness :
    2 ≤ ("ab" : String).data.length ∧ 2 ≤ ("abc" : String).data.length ∧
    (jsIncludes "abc" "ab" || jsIncludes "ab" "abc") = true :=
  (safeContainsMatch_guard "ab" "abc").1 (by decide)

/-- Counterexample for C9 as stated: the containment fallback of
`findTrackByTitleInAlbum` has no length guard at all — a stored song
whose title normalizes to the empty key matches ANY incoming title
(the empty string is a substring of everything). -/
theorem findTrackByTitleInAlbum_no_length_guard :
    findTrackByTitleInAlbum [c9T0] "c" "hello" "" = some c9T0 ∧
    normalizeKeyDk c9T0.title = "" := by decide

/-- C8 (amended): both cited `normalizeKey`s are deterministic total
functions with empty input yielding the empty key; the attach-script
`normalizeKey` lowercases and deletes every whitespace/bracket/
punctuation character of its class, so two (ASCII) titles that differ
only in such characters always produce identical keys.  (The DistroKid
variant only NFKC-normalizes, trims and lowercases — its strip class is
inert, see the counterexample — and neither variant strips track-number
prefixes or lyrics suffixes; that is `normalizeTitle`'s job in the
local-metadata importer.) -/
theorem normalizeKey_total_and_attach_insensitive :
    (normalizeKeyDk "" = "" ∧ normalizeKeyAttach "" = "") ∧
    (∀ s t : String,
      (∀ c ∈ s.data, c.toNat < 128) → (∀ c ∈ t.data, c.toNat < 128) →
      s.data.filter (fun c => !isAttachStripChar c) =
        t.data.filter (fun c => !isAttachStripChar c) →
      normalizeKeyAttach s = normalizeKeyAttach t) := by
  refine ⟨⟨rfl, rfl⟩, fun s t hs ht hf => ?_⟩
  rw [normalizeKeyAttach_ascii s hs, normalizeKeyAttach_ascii t ht, hf]

/-- Witness for C8: two titles differing only in whitespace, brackets
and punctuation get the same attach-normalized key. -/
theorem normalizeKey_attach_witness :
    normalizeKeyAttach "Song A (Remix)" = normalizeKeyAttach "Song-A_[Remix]" :=
  normalizeKey_total_and_attach_insensitive.2 "Song A (Remix)" "Song-A_[Remix]"
    (by decide) (by decide) (by decide)

/-- Counterexample for C8 as stated: under the DistroKid `normalizeKey`
(whose punctuation class is inert, see `dkBrokenStrip`), two titles that
differ only in whitespace produce different keys. -/
theorem normalizeKeyDk_whitespace_sensitive :
    ("a b".data.filter (fun c => !isJsWs c) = "ab".data) ∧
    normalizeKeyDk "a b" ≠ normalizeKeyDk "ab" := by decide

/-- C4: The upsert of the NetEase sync script (match by `id`, merge via
`mergeAlbum`/`mergeSong`, else insert the incoming record as-is) is
idempotent for every catalog state and every CLEAN incoming record —
one whose tags are duplicate-free and non-empty and whose links (and,
for songs, embeds) carry pairwise-distinct non-skipped dedup keys.  The
second application matches the entity stored by the first and leaves the
catalog unchanged.  (As stated for ALL records the claim fails: the
insert path stores raw tags/links, so a record with a duplicate tag is
normalized only by the second application — see the counterexample.) -/
theorem upsertSync_idempotent_on_clean_records :
    (∀ (C : List Item) (R : NeAlbumIncoming),
      R.tags.Nodup → "" ∉ R.tags →
      R.links.Pairwise (fun a b => linkKeySync a ≠ linkKeySync b) →
      (∀ l ∈ R.links, linkKeySync l ≠ none) →
      upsertAlbumSync (upsertAlbumSync C R) R = upsertAlbumSync C R) ∧
    (∀ (C : List Item) (R : NeSongIncoming),
      R.tags.Nodup → "" ∉ R.tags →
      R.links.Pairwise (fun a b => linkKeySync a ≠ linkKeySync b) →
      (∀ l ∈ R.links, linkKeySync l ≠ none) →
      R.embeds.Pairwise (fun a b => embedKeySync a ≠ embedKeySync b) →
      (∀ e ∈ R.embeds, embedKeySync e ≠ none) →
      upsertSongSync (upsertSongSync C R) R = upsertSongSync C R) :=
  ⟨fun C R h1 h2 h3 h4 => upsertAlbumSync_idem C R h1 h2 h3 h4,
   fun C R h1 h2 h3 h4 h5 h6 => upsertSongSync_idem C R h1 h2 h3 h4 h5 h6⟩

/-- Witness for C4: the idempotence theorem applied to an empty catalog
and concrete clean album/song records. -/
theorem upsertSync_idempotent_witness :
    upsertAlbumSync (upsertAlbumSync [] c4W) c4W = upsertAlbumSync [] c4W ∧
    upsertSongSync (upsertSongSync [] c4WS) c4WS = upsertSongSync [] c4WS :=
  ⟨upsertSync_idempotent_on_clean_records.1 [] c4W (by decide) (by decide)
      (by decide) (by decide),
   upsertSync_idempotent_on_clean_records.2 [] c4WS (by decide) (by decide)
      (by decide) (by decide) (by decide) (by decide)⟩

/-- Counterexample for C4 as stated (for ALL incoming records): an album
record carrying a duplicate tag is stored raw by the first upsert and
tag-deduplicated by the second, so the catalogs differ. -/
theorem upsertSync_not_idempotent_duplicate_tags :
    upsertAlbumSync (upsertAlbumSync [] c4R) c4R ≠ upsertAlbumSync [] c4R := by
  decide

end MusicBoard
